import Mathlib

/-!
# sync-v3: joined-rooms tracker, sync v2 client, connection window engine

A shallow embedding of

* `synclive/tracker.go`   (namespace `synclive`): the `user_id ↔ room_id` bi-index,
* `sync2/client.go`       (namespace `sync2`): the upstream sync v2 client,
* the per-connection windowed-list engine exercised by `sync3/connstate_test.go`
  (namespace `sync3`).

Definitions come first, theorems afterwards.
-/

/-! ## synclive/tracker.go -/

namespace synclive

/-- The two Go maps of `JoinedRoomsTracker`. A Go `map[string][]string` read at a missing key
yields the nil slice, so each map is a total function into lists, the empty list standing for
both "no entry" and "empty slice". Every stored slice is only ever reachable through its own
key, so backing arrays are never shared between keys and a slice is modelled by its elements.
The mutex is not modelled: every method holds it for its whole body. -/
structure JoinedRoomsTracker where
  roomIDToJoinedUsers : String → List String
  userIDToJoinedRooms : String → List String

/-- The constructor `NewJoinedRoomsTracker`: both maps empty. -/
def NewJoinedRoomsTracker : JoinedRoomsTracker :=
  { roomIDToJoinedUsers := fun _ => []
    userIDToJoinedRooms := fun _ => [] }

/-- Go map assignment `m[k] = v`. -/
def mapStore (m : String → List String) (k : String) (v : List String) : String → List String :=
  fun k' => if k' = k then v else m k'

/-- The method `UserJoinedRoom`: append the room to the user's list and the user to the room's
list. -/
def UserJoinedRoom (t : JoinedRoomsTracker) (userID roomID : String) : JoinedRoomsTracker :=
  let joinedRooms := t.userIDToJoinedRooms userID
  let joinedUsers := t.roomIDToJoinedUsers roomID
  let joinedRooms := joinedRooms ++ [roomID]
  let joinedUsers := joinedUsers ++ [userID]
  { userIDToJoinedRooms := mapStore t.userIDToJoinedRooms userID joinedRooms
    roomIDToJoinedUsers := mapStore t.roomIDToJoinedUsers roomID joinedUsers }

/-- The loop of `UserLeftRoom`,
`for i := 0; i < len(s); i++ { if id == s[i] { s[i] = s[len(s)-1]; s = s[:len(s)-1] } }`,
started at index `i` on slice `s`. Each iteration increments `i` and never lengthens `s`, so
the loop runs at most `len(s) - i` times; `fuel` bounds the number of iterations and the caller
passes the initial length (`removeLoop_fuel` shows that any larger bound gives the same
result). Both element reads carry their bounds proofs. -/
def removeLoop (id : String) : Nat → Nat → List String → List String
  | 0, _, s => s
  | fuel + 1, i, s =>
    if h : i < s.length then
      if id = s[i] then
        have hl : s.length - 1 < s.length := by omega
        removeLoop id fuel (i + 1) ((s.set i s[s.length - 1]).take (s.length - 1))
      else
        removeLoop id fuel (i + 1) s
    else s

/-- The method `UserLeftRoom`: swap-remove the room from the user's list, then the user from the
room's list, and store both slices back. -/
def UserLeftRoom (t : JoinedRoomsTracker) (userID roomID : String) : JoinedRoomsTracker :=
  let joinedRooms := t.userIDToJoinedRooms userID
  let joinedRooms := removeLoop roomID joinedRooms.length 0 joinedRooms
  let joinedUsers := t.roomIDToJoinedUsers roomID
  let joinedUsers := removeLoop userID joinedUsers.length 0 joinedUsers
  { userIDToJoinedRooms := mapStore t.userIDToJoinedRooms userID joinedRooms
    roomIDToJoinedUsers := mapStore t.roomIDToJoinedUsers roomID joinedUsers }

/-- The reader `JoinedRoomsForUser`. -/
def JoinedRoomsForUser (t : JoinedRoomsTracker) (userID : String) : List String :=
  t.userIDToJoinedRooms userID

/-- The reader `JoinedUsersForRoom`. -/
def JoinedUsersForRoom (t : JoinedRoomsTracker) (roomID : String) : List String :=
  t.roomIDToJoinedUsers roomID

/-- How a bounds-checked run of the loop of `UserLeftRoom` ends: with an index-out-of-range
panic, with the bound on the iterations used up while the loop condition still holds, or
finished, with the resulting slice, the number of iterations made, and the accesses made, each
as the index used paired with the length of the slice at that moment. -/
inductive LoopOutcome where
  | panicked
  | unfinished
  | finished (s : List String) (iterations : Nat) (accesses : List (Int × Nat))
  deriving DecidableEq, Repr

/-- The Go index expression `s[k]` on a Go `int` index: `none` is the run-time panic for an
index out of range. -/
def indexAt (s : List String) (k : Int) : Option String :=
  if 0 ≤ k ∧ k < (s.length : Int) then s[k.toNat]? else none

/-- One more iteration before the rest of a run: its accesses come first. -/
def LoopOutcome.after (accesses : List (Int × Nat)) : LoopOutcome → LoopOutcome
  | .finished s n a => .finished s (n + 1) (accesses ++ a)
  | .panicked => .panicked
  | .unfinished => .unfinished

/-- The loop of `UserLeftRoom` once more, with every access checked as Go checks it: the read
`s[i]` of the comparison, the read `s[len(s)-1]`, the write `s[i] = ...`, and the slice
expression `s[:len(s)-1]`, whose bound must be non-negative and at most the capacity (the
length is used for it). `len(s)-1` is computed on integers, as in Go. `fuel` bounds the number
of iterations. -/
def removeLoopChecked (id : String) : Nat → Nat → List String → LoopOutcome
  | 0, i, s => if i < s.length then .unfinished else .finished s 0 []
  | fuel + 1, i, s =>
    if i < s.length then
      match indexAt s i with
      | none => .panicked
      | some x =>
        if id = x then
          let k : Int := (s.length : Int) - 1
          match indexAt s k with
          | none => .panicked
          | some last =>
            if 0 ≤ (i : Int) ∧ (i : Int) < (s.length : Int) then
              if 0 ≤ k ∧ k ≤ (s.length : Int) then
                (removeLoopChecked id fuel (i + 1) ((s.set i last).take k.toNat)).after
                  [((i : Int), s.length), (k, s.length), ((i : Int), s.length)]
              else .panicked
            else .panicked
        else (removeLoopChecked id fuel (i + 1) s).after [((i : Int), s.length)]
    else .finished s 0 []

/-- The slice a finished run leaves; `none` for a run that panicked or did not finish. -/
def LoopOutcome.slice : LoopOutcome → Option (List String)
  | .finished s _ _ => some s
  | .panicked => none
  | .unfinished => none

/-- The method `UserLeftRoom` with both loops bounds-checked and bounded by the initial length
of their slice; `none` when one of them panics or does not finish. -/
def UserLeftRoomChecked (t : JoinedRoomsTracker) (userID roomID : String) :
    Option JoinedRoomsTracker :=
  let joinedRooms := t.userIDToJoinedRooms userID
  match (removeLoopChecked roomID joinedRooms.length 0 joinedRooms).slice with
  | none => none
  | some joinedRooms =>
    let joinedUsers := t.roomIDToJoinedUsers roomID
    match (removeLoopChecked userID joinedUsers.length 0 joinedUsers).slice with
    | none => none
    | some joinedUsers =>
      some
        { userIDToJoinedRooms := mapStore t.userIDToJoinedRooms userID joinedRooms
          roomIDToJoinedUsers := mapStore t.roomIDToJoinedUsers roomID joinedUsers }

/-- An access is in bounds: `0 <= index < len`, and so `len >= 1`. -/
def inBounds (a : Int × Nat) : Bool :=
  decide (0 ≤ a.1) && decide (a.1 < (a.2 : Int)) && decide (1 ≤ a.2)

/-- One call of a writer method of the tracker. -/
inductive Call where
  | joined (userID roomID : String)
  | left (userID roomID : String)
  deriving DecidableEq, Repr

/-- The tracker after one writer call. -/
def Call.apply (t : JoinedRoomsTracker) : Call → JoinedRoomsTracker
  | .joined u r => UserJoinedRoom t u r
  | .left u r => UserLeftRoom t u r

/-- The state reached from `NewJoinedRoomsTracker()` by a finite sequence of writer calls,
performed left to right. -/
def run (calls : List Call) : JoinedRoomsTracker :=
  calls.foldl Call.apply NewJoinedRoomsTracker

end synclive

/-! ## sync2/client.go -/

namespace sync2

/-- The part of an `*http.Request` that the client sets and sends: the method, the parsed URL
(rendered as a string; it need not be the string that was parsed), and the headers. -/
structure Request where
  Method : String
  URL : String
  Header : List (String × String)
  deriving DecidableEq, Repr

/-- What `v.Client.Do(req)` hands back: a transport error, or a response with its
`StatusCode`, `Status` text and `Body`. -/
inductive DoResult where
  | err (e : String)
  | res (StatusCode : Int) (Status : String) (Body : String)
  deriving DecidableEq, Repr

/-- The errors `DoSyncV2` builds with `fmt.Errorf`, one constructor per format string. -/
inductive SyncError where
  | newRequestFailed (e : String)
  | requestFailed (e : String)
  | decodeFailed (e : String)
  | responseReturned (Status : String)
  deriving DecidableEq, Repr

/-- How a call of `DoSyncV2` ends: with a nil-pointer panic, or by returning
`(*SyncResponse, int, error)`, a nil pointer and a nil error being `none`. -/
inductive Outcome (SyncResponse : Type) where
  | nilDeref
  | ret (res : Option SyncResponse) (status : Int) (err : Option SyncError)

/-- A call of `DoSyncV2` as seen from outside: the requests it handed to `v.Client.Do`, in
order, and how it ended. -/
structure SyncCall (SyncResponse : Type) where
  sent : List Request
  outcome : Outcome SyncResponse

/-- The struct `HTTPClient`: the `Do` method of the `*http.Client` and the destination server. -/
structure HTTPClient where
  Do : Request → DoResult
  DestinationServer : String

/-- The library call `http.NewRequest(method, url, nil)` for a valid method such as `GET`. The
parameter `parseURL` is `url.Parse` as the library applies it: an error when the string is
rejected, else the parsed URL. The request has no header yet. -/
def NewRequest (parseURL : String → Except String String) (method rawURL : String) :
    Except String Request :=
  match parseURL rawURL with
  | .error e => .error e
  | .ok u => .ok { Method := method, URL := u, Header := [] }

/-- The first check of `url.Parse`: a string that holds an ASCII control byte (below `0x20`, or
`0x7f`) is rejected. A string without one is handed back as it is, which stands for whatever
the library makes of it; the theorems evaluate this function only on strings it rejects and on
plain URLs that parsing leaves as they are. -/
def controlBytesRejected (rawURL : String) : Except String String :=
  if rawURL.toList.any (fun c => decide (c.toNat < 0x20) || decide (c.toNat = 0x7f)) then
    .error "net/url: invalid control character in URL"
  else .ok rawURL

/-- The method `http.Header.Set`: replace the values stored under `key`. -/
def headerSet (h : List (String × String)) (key value : String) : List (String × String) :=
  h.filter (fun kv => kv.1 ≠ key) ++ [(key, value)]

/-- The two `req.Header.Set` calls both methods make on their request. -/
def setHeaders (req : Request) (authHeader : String) : Request :=
  let req := { req with Header := headerSet req.Header "User-Agent" "sync-v3-proxy" }
  { req with Header := headerSet req.Header "Authorization" authHeader }

/-- The URL string `DoSyncV2` passes to `http.NewRequest`. -/
def syncV2URL (DestinationServer since : String) : String :=
  let qps := "?timeout=30000"
  let qps := if since ≠ "" then qps ++ ("&since=" ++ since) else qps
  DestinationServer ++ "/_matrix/client/r0/sync" ++ qps

/-- The method `DoSyncV2`. The libraries are taken as parameters: `parseURL` is `url.Parse` as
`http.NewRequest` applies it, and `decode` is `json.NewDecoder(body).Decode` into a
`SyncResponse`. When `http.NewRequest` fails `req` is nil and the `req.Header.Set` that
precedes the error check dereferences it: nothing is sent, and the `NewRequest failed` return
is never reached. -/
def DoSyncV2 {SyncResponse : Type} (parseURL : String → Except String String)
    (decode : String → Except String SyncResponse)
    (v : HTTPClient) (authHeader since : String) : SyncCall SyncResponse :=
  match NewRequest parseURL "GET" (syncV2URL v.DestinationServer since) with
  | .error _ => { sent := [], outcome := .nilDeref }
  | .ok req =>
    let req := setHeaders req authHeader
    { sent := [req]
      outcome :=
        match v.Do req with
        | .err e => .ret none 0 (some (.requestFailed e))
        | .res StatusCode Status Body =>
          if StatusCode = 200 then
            match decode Body with
            | .error e => .ret none 0 (some (.decodeFailed e))
            | .ok svr => .ret (some svr) 200 none
          else
            .ret none StatusCode (some (.responseReturned Status)) }

/-- The errors `WhoAmI` returns: the one of `http.NewRequest`, the one of `Client.Do`, the
`/whoami returned HTTP %d` one, and the one of `ioutil.ReadAll`. -/
inductive WhoAmIError where
  | newRequest (e : String)
  | transport (e : String)
  | returnedHTTP (StatusCode : Int)
  | readBody (e : String)
  deriving DecidableEq, Repr

/-- The URL string `WhoAmI` passes to `http.NewRequest`. -/
def whoAmIURL (DestinationServer : String) : String :=
  DestinationServer ++ "/_matrix/client/r0/account/whoami"

/-- The method `WhoAmI`, returning `(string, error)` with a nil error being `none`. The
libraries are taken as parameters: `parseURL` is `url.Parse` as `http.NewRequest` applies it,
`readAll` is `ioutil.ReadAll` on the response body, and `gjsonStr body path` is
`gjson.GetBytes(body, path).Str`. Here the error of `http.NewRequest` is checked before the
request is used. -/
def WhoAmI (parseURL : String → Except String String) (readAll : String → Except String String)
    (gjsonStr : String → String → String) (v : HTTPClient) (authHeader : String) :
    String × Option WhoAmIError :=
  match NewRequest parseURL "GET" (whoAmIURL v.DestinationServer) with
  | .error e => ("", some (.newRequest e))
  | .ok req =>
    match v.Do (setHeaders req authHeader) with
    | .err e => ("", some (.transport e))
    | .res StatusCode _ Body =>
      if StatusCode ≠ 200 then ("", some (.returnedHTTP StatusCode))
      else
        match readAll Body with
        | .error e => ("", some (.readBody e))
        | .ok body => (gjsonStr body "user_id", none)

end sync2

/-! ## The connection window engine (sync3)

The engine's own source (`ConnState` and the types it works on) is not available; only its
tests are. It is modelled here from the specification, and the tests of `connstate_test.go`
are replayed on the model further down. -/

namespace sync3

/-- Modelled from the spec: the room summary of §3 (`SortableRoom`, its declaration is not
available, the tests build it with these fields): stable key `RoomID`, the name, the
last-message timestamp in milliseconds, the latest event, and the optional counter pair, a zero
count being an absent one. -/
structure SortableRoom where
  RoomID : String
  Name : String
  LastMessageTimestamp : Int
  LastEventJSON : String
  HighlightCount : Int := 0
  NotificationCount : Int := 0
  deriving DecidableEq, Repr

/-- Modelled from the spec: the two sort criteria of §3, `by_recency` and `by_name` (the
engine's source is not available). -/
inductive SortCriterion where
  | by_recency
  | by_name
  deriving DecidableEq, Repr

/-- Modelled from the spec: the order of the sorted list (§3), whose source is not available.
`ordered c a b` says that under criterion `c` room `a` may stand before room `b`: `by_recency`
is descending `last_message_timestamp`, `by_name` is lexicographic on `name`, and ties are
broken by ascending `room_id`. Strings are compared through their character lists, which is the
order of `String`. -/
def ordered (c : SortCriterion) (a b : SortableRoom) : Prop :=
  match c with
  | .by_recency =>
    b.LastMessageTimestamp < a.LastMessageTimestamp ∨
      (a.LastMessageTimestamp = b.LastMessageTimestamp ∧ a.RoomID.toList ≤ b.RoomID.toList)
  | .by_name =>
    a.Name.toList < b.Name.toList ∨
      (a.Name.toList = b.Name.toList ∧ a.RoomID.toList ≤ b.RoomID.toList)

instance (c : SortCriterion) : DecidableRel (ordered c) := fun a b => by
  cases c <;> unfold ordered <;> exact inferInstance

/-- Modelled from the spec: the `move_result` of `update` (§4.1), whose source is not available;
`src` is `none` for an absent room. -/
inductive MoveResult where
  | unchanged
  | updated_in_place (index : Nat)
  | moved (src : Option Nat) (dst : Nat)
  deriving DecidableEq, Repr

/-- Modelled from the spec: the sorted-list operation `build(rooms, criterion)` of §4.1, whose
source is not available. -/
def build (rooms : List SortableRoom) (c : SortCriterion) : List SortableRoom :=
  rooms.insertionSort (ordered c)

/-- Modelled from the spec: the sorted-list operation `position_of(room_id)` of §4.1, whose
source is not available: the index of the first entry with that id, `none` when not present. -/
def position_of : List SortableRoom → String → Option Nat
  | [], _ => none
  | r :: rs, id => if r.RoomID = id then some 0 else (position_of rs id).map (· + 1)

/-- Modelled from the spec: the sorted-list operation `remove(room_id)` of §4.1, whose source is
not available. -/
def remove (L : List SortableRoom) (id : String) : List SortableRoom :=
  L.filter (fun r => r.RoomID ≠ id)

/-- Modelled from the spec: the sorted-list operation `insert(room_id, summary)` of §4.1, whose
source is not available: the entry is placed where the criterion puts it. -/
def insert (c : SortCriterion) (L : List SortableRoom) (s : SortableRoom) : List SortableRoom :=
  L.orderedInsert (ordered c) s

/-- Modelled from the spec: the sorted-list operation `update(room_id, new_summary)` of §4.1,
whose source is not available. The room is reclassified; when its computed position differs from
the old one the entry is removed and re-inserted, otherwise the summary is replaced in place
(`unchanged` when it was already the stored one). An unknown room is added, reclassified, and
reported as `moved(absent, new_index)`. -/
def update (c : SortCriterion) (L : List SortableRoom) (s : SortableRoom) :
    List SortableRoom × MoveResult :=
  match position_of L s.RoomID with
  | none =>
    let L' := insert c L s
    (L', .moved none ((position_of L' s.RoomID).getD L.length))
  | some p =>
    let L' := insert c (remove L s.RoomID) s
    let q := (position_of L' s.RoomID).getD p
    if q = p then
      if L[p]? = some s then (L, .unchanged) else (L.set p s, .updated_in_place p)
    else (L', .moved (some p) q)

/-- Modelled from the spec: the range set of §3, whose source is not available: inclusive
intervals `[lo, hi]` of positions. -/
abbrev RangeSet := List (Nat × Nat)

/-- Modelled from the spec: the merge step of the canonicalisation of §4.2, whose source is not
available; `acc` holds the merged intervals, last one first. -/
def mergeInto (acc : RangeSet) (iv : Nat × Nat) : RangeSet :=
  match acc with
  | [] => [iv]
  | (lo, hi) :: rest =>
    if iv.1 ≤ hi + 1 then (lo, max hi iv.2) :: rest else iv :: (lo, hi) :: rest

/-- Modelled from the spec: the canonicalisation of §4.2, whose source is not available:
intervals sorted by `lo` and merged when touching or overlapping. -/
def canonicalise (R : RangeSet) : RangeSet :=
  ((R.insertionSort (fun a b => a.1 ≤ b.1)).foldl mergeInto []).reverse

/-- Modelled from the spec: the range-set operation `clamp(N)` of §4.2, whose source is not
available: every interval intersected with `[0, N-1]`, intervals that become empty being
dropped. -/
def clamp (R : RangeSet) (N : Nat) : RangeSet :=
  R.filterMap (fun iv => if iv.1 < N then some (iv.1, min iv.2 (N - 1)) else none)

/-- Modelled from the spec: the range-set operation `contains(index)` of §4.2, whose source is
not available. -/
def contains (R : RangeSet) (p : Nat) : Bool :=
  R.any (fun iv => decide (iv.1 ≤ p) && decide (p ≤ iv.2))

/-- Modelled from the spec: the range-set predicate of §3, whose source is not available: a
position is inside iff it lies in some interval clipped to `[0, N-1]`. -/
def inside (R : RangeSet) (N : Nat) (p : Nat) : Bool :=
  contains (clamp R N) p

/-- Modelled from the spec: a helper of `added_since` (§4.2), whose source is not available:
what is left of interval `iv` after removing the positions of interval `p`. -/
def subtractInterval (iv p : Nat × Nat) : RangeSet :=
  if p.2 < iv.1 ∨ iv.2 < p.1 then [iv]
  else
    (if iv.1 < p.1 then [(iv.1, p.1 - 1)] else []) ++
      (if p.2 < iv.2 then [(p.2 + 1, iv.2)] else [])

/-- Modelled from the spec: the range-set operation `added_since(prev)` of §4.2, whose source is
not available: the intervals of positions that are in `R` and not in `prev`. -/
def added_since (R prev : RangeSet) : RangeSet :=
  R.flatMap (fun iv => prev.foldl (fun acc p => acc.flatMap (fun x => subtractInterval x p)) [iv])

/-- Modelled from the spec: the range-set operation `removed_since(prev)` of §4.2, whose source
is not available: the intervals of positions that are in `prev` and not in `R`. -/
def removed_since (R prev : RangeSet) : RangeSet :=
  added_since prev R

/-- Modelled from the spec: the room subscription of §3 (`RoomSubscription`, whose declaration
is not available): a timeline limit and the required state pairs. -/
structure RoomSubscription where
  TimelineLimit : Nat
  RequiredState : List (String × String) := []
  deriving DecidableEq, Repr

/-- Modelled from the spec: the request of §4.3.2 (`Request`, whose declaration is not
available). `Rooms` holds the ranges as the client sent them; `SortBy` is the `sort` field. The
timeout is not a field: the events that arrive before it fires are an argument of
`HandleIncomingRequest`. -/
structure Request where
  SortBy : Option SortCriterion := none
  Rooms : List (Int × Int) := []
  RoomSubscriptions : List (String × RoomSubscription) := []
  UnsubscribeRooms : List String := []
  deriving DecidableEq, Repr

/-- Modelled from the spec: the room payload of §6 (`Room`, whose declaration is not available).
An empty `Name`, `Timeline` or `RequiredState` and a zero count are fields left out of the
payload. -/
structure Room where
  RoomID : String
  Name : String := ""
  Timeline : List String := []
  RequiredState : List String := []
  HighlightCount : Int := 0
  NotificationCount : Int := 0
  deriving DecidableEq, Repr

/-- Modelled from the spec: the four ops of §6 (`ResponseOpRange` and `ResponseOpSingle`, whose
declaration is not available). -/
inductive ResponseOp where
  | SYNC (range : Nat × Nat) (rooms : List Room)
  | INSERT (index : Nat) (room : Room)
  | DELETE (index : Nat)
  | UPDATE (index : Nat) (room : Room)
  deriving DecidableEq, Repr

/-- Modelled from the spec: the response of §4.3.2 (`Response`, whose declaration is not
available). `RoomSubscriptions` is a map given as an association list. -/
structure Response where
  Count : Nat := 0
  Ops : List ResponseOp := []
  RoomSubscriptions : List (String × Room) := []
  deriving DecidableEq, Repr

/-- Modelled from the spec: the event notification of §3 (`EventData`, whose declaration is not
available). `content` lists the string-valued top-level fields of the event content. -/
structure EventData where
  roomID : String
  eventType : String
  stateKey : Option String := none
  timestamp : Int
  content : List (String × String) := []
  event : String
  deriving DecidableEq, Repr

/-- Modelled from the spec: the result of `LoadUserRoomData` (§6), whose declaration is not
available: the counters and the timeline tail. -/
structure userRoomData where
  NotificationCount : Int := 0
  HighlightCount : Int := 0
  Timeline : List String := []
  deriving DecidableEq, Repr

/-- Modelled from the spec: the persistence interface of §6 together with the shared room store
(the interface `connStateStoreMock` implements, whose declaration is not available). -/
structure Store where
  Load : String → List String × Int
  LoadRoom : String → SortableRoom
  LoadState : String → Int → List (String × String) → List String
  LoadUserRoomData : String → String → userRoomData

/-- Modelled from the spec: the errors of §7 a request can end with, for a connection engine
whose source is not available. -/
inductive RequestError where
  | invalidated
  | malformed (field : String)
  deriving DecidableEq, Repr

/-- Modelled from the spec: the connection state of §4.3 (`ConnState`, whose source is not
available): the user, the store, the loaded flag with the watermark, the active sort, the sorted
list `L`, the active ranges `R` as requested (canonicalised, and clamped whenever positions are
resolved), the subscription map `S`, and the fan-in queue of §4.4 with its capacity and the
invalidation mark set on overflow. -/
structure ConnState where
  userID : String
  store : Store
  loaded : Bool := false
  loadPosition : Int := 0
  sort : SortCriterion := .by_recency
  rooms : List SortableRoom := []
  ranges : RangeSet := []
  subscriptions : List (String × RoomSubscription) := []
  queue : List EventData := []
  capacity : Nat := 512
  invalidated : Bool := false

/-- Modelled from the spec: the constructor `NewConnState(userID, store)` the tests call, whose
source is not available: nothing loaded, nothing tracked, an empty queue. -/
def NewConnState (userID : String) (store : Store) : ConnState :=
  { userID := userID, store := store }

/-- Modelled from the spec: the fan-in writer `ConnState.PushNewEvent` of §4.4, whose source is
not available. A full buffer invalidates the connection. -/
def PushNewEvent (cs : ConnState) (ed : EventData) : ConnState :=
  if cs.queue.length < cs.capacity then { cs with queue := cs.queue ++ [ed] }
  else { cs with invalidated := true }

/-- Modelled from the spec: the full payload of a room of the list (§4.5), built by code that is
not available: its name, its latest event as the timeline, and its counters. -/
def fullRoom (r : SortableRoom) : Room :=
  { RoomID := r.RoomID, Name := r.Name, Timeline := [r.LastEventJSON],
    HighlightCount := r.HighlightCount, NotificationCount := r.NotificationCount }

/-- Modelled from the spec: the partial payload of an `UPDATE` (§4.3.3), built by code that is
not available: the room id and just the new event in `timeline`. -/
def partialRoom (ev : EventData) : Room :=
  { RoomID := ev.roomID, Timeline := [ev.event] }

/-- Modelled from the spec: the truncation of a timeline to its `n` most recent entries
(§4.3.3), done by code that is not available. -/
def lastN (n : Nat) (tl : List String) : List String :=
  tl.drop (tl.length - n)

/-- Modelled from the spec: the initial emission for a new subscription (§4.3.2, step 1), built
by code that is not available: the name, a timeline tail of length at most `timeline_limit`
followed by the latest event, the required state and the counters. -/
def initialRoomData (cs : ConnState) (roomID : String) (sub : RoomSubscription) : Room :=
  let r := cs.store.LoadRoom roomID
  let d := cs.store.LoadUserRoomData roomID cs.userID
  { RoomID := roomID, Name := r.Name,
    Timeline := lastN sub.TimelineLimit d.Timeline ++ [r.LastEventJSON],
    RequiredState := cs.store.LoadState roomID cs.loadPosition sub.RequiredState,
    HighlightCount := d.HighlightCount, NotificationCount := d.NotificationCount }

/-- Modelled from the spec: map assignment, for the maps of an engine whose source is not
available; on an association list it replaces the entry of `k`, or adds one at the end. -/
def assocSet {β : Type} : List (String × β) → String → β → List (String × β)
  | [], k, v => [(k, v)]
  | kv :: m, k, v => if kv.1 = k then (k, v) :: m else kv :: assocSet m k v

/-- Modelled from the spec: map lookup, for the maps of an engine whose source is not available. -/
def assocGet {β : Type} : List (String × β) → String → Option β
  | [], _ => none
  | kv :: m, k => if kv.1 = k then some kv.2 else assocGet m k

/-- Modelled from the spec: map deletion, for the maps of an engine whose source is not
available. -/
def assocErase {β : Type} (m : List (String × β)) (k : String) : List (String × β) :=
  m.filter (fun kv => kv.1 ≠ k)

/-- Modelled from the spec: the update of a stored summary by an event (§4.3.3), done by code
that is not available, as `connStateStoreMock.PushNewEvent` does it: new timestamp and latest
event, and the new name when the event is the room's name event. -/
def newSummary (old : SortableRoom) (ev : EventData) : SortableRoom :=
  { old with
    LastEventJSON := ev.event
    LastMessageTimestamp := ev.timestamp
    Name :=
      if ev.eventType = "m.room.name" then (assocGet ev.content "name").getD "" else old.Name }

/-- Modelled from the spec: the write to the shared room store of §4.3.3, done by code that is
not available: the summary of one room is replaced. -/
def Store.setRoom (st : Store) (s : SortableRoom) : Store :=
  { st with LoadRoom := fun id => if id = s.RoomID then s else st.LoadRoom id }

/-- Modelled from the spec: the test for the leave transition of §4.3.3 (row `inside → absent`),
whose source is not available: the event is the membership event of the connection's user, with
membership `leave`. -/
def isLeave (userID : String) (ev : EventData) : Bool :=
  decide (ev.eventType = "m.room.member") && decide (ev.stateKey = some userID) &&
    decide (assocGet ev.content "membership" = some "leave")

/-- Modelled from the spec: a helper of the diff algorithm of §4.3.3, whose source is not
available: the tracked positions among `lo, lo+1, ..., hi`, ascending. -/
def trackedBetween (R : RangeSet) (N lo hi : Nat) : List Nat :=
  (List.range' lo (hi + 1 - lo)).filter (inside R N)

/-- Modelled from the spec: a helper of the diff algorithm of §4.3.3, whose source is not
available: the interval of `R` that position `p` belongs to. -/
def intervalOf (R : RangeSet) (p : Nat) : Option (Nat × Nat) :=
  R.find? (fun iv => decide (iv.1 ≤ p) && decide (p ≤ iv.2))

/-- Modelled from the spec: the op pair of §4.3.3, emitted by code that is not available:
`DELETE d` followed by `INSERT i` with the full payload of the room now at `i`. -/
def deleteInsert (L : List SortableRoom) (d i : Option Nat) : List ResponseOp :=
  match d, i with
  | some d, some i =>
    match L[i]? with
    | some r => [.DELETE d, .INSERT i (fullRoom r)]
    | none => []
  | _, _ => []

/-- Modelled from the spec: the table of §4.3.3, whose source is not available, for an event
that leaves the room at position `b` of the updated list `L`; `pOld` is its position before the
update (`none` when absent, which counts as the slot just past the old end). A room that keeps a
tracked position gives an `UPDATE`. Otherwise the `DELETE` names the old position when it is
tracked and else the tracked edge the shift pushes a room out of, and the `INSERT` names the new
position when it is tracked and else the edge a room scrolls into: the end of the old position's
own interval when the room left a tracked position, and the nearest tracked edge when both
positions are untracked. That last case is where the table says no op and
`TestConnStateMultipleRanges` says otherwise (room 9 going to position 3 between `[0,2]` and
`[4,6]` gives `DELETE 6, INSERT 4`); the test is followed. No tracked position between the two
positions means no op. -/
def moveOps (R : RangeSet) (L : List SortableRoom) (pOld : Option Nat) (b : Nat)
    (ev : EventData) : List ResponseOp :=
  let N := L.length
  let a := pOld.getD (N - 1)
  if pOld = some b then
    if inside R N b then [.UPDATE b (partialRoom ev)] else []
  else
    let T := trackedBetween R N (min a b) (max a b)
    let del := if inside R N a then some a else if b < a then T.getLast? else T.head?
    let ins :=
      if inside R N b then some b
      else
        match (if inside R N a then intervalOf R a else none) with
        | some iv => some (if b < a then iv.1 else min iv.2 (N - 1))
        | none => if b < a then T.head? else T.getLast?
    deleteInsert L del ins

/-- Modelled from the spec: the last row of the table of §4.3.3, whose source is not available:
the room at tracked position `a` leaves, and `L` is the list after the removal. `DELETE a`, then
`INSERT` at the end of the interval of `a` with the room newly occupying that slot, when there
is one. The table has no row for a leave from an untracked position: no op. -/
def leaveOps (R : RangeSet) (L : List SortableRoom) (a : Nat) : List ResponseOp :=
  match intervalOf R a with
  | some iv =>
    .DELETE a :: (match L[iv.2]? with
      | some r => [.INSERT iv.2 (fullRoom r)]
      | none => [])
  | none => []

/-- Modelled from the spec: the subscription side effect of §4.3.3, whose source is not
available: when the event's room is in `S` the event is appended to the timeline of the room's
entry in the response, truncated to the `timeline_limit` most recent. -/
def subscriptionUpdate (S : List (String × RoomSubscription)) (subs : List (String × Room))
    (ev : EventData) : List (String × Room) :=
  match assocGet S ev.roomID with
  | none => subs
  | some sub =>
    let entry := (assocGet subs ev.roomID).getD { RoomID := ev.roomID }
    assocSet subs ev.roomID
      { entry with Timeline := lastN sub.TimelineLimit (entry.Timeline ++ [ev.event]) }

/-- Modelled from the spec: the new summary of §4.3.3, computed by code that is not available:
the entry of the list when the room is in it, else the stored summary, updated by the event. -/
def summaryAfter (cs : ConnState) (ev : EventData) : SortableRoom :=
  let old := match position_of cs.rooms ev.roomID with
    | some p => cs.rooms.getD p (cs.store.LoadRoom ev.roomID)
    | none => cs.store.LoadRoom ev.roomID
  newSummary old ev

/-- Modelled from the spec: the new position of §4.3.3, read off the `move_result` by code that
is not available, given the old position. -/
def newPosition (pOld : Option Nat) : MoveResult → Nat
  | .unchanged => pOld.getD 0
  | .updated_in_place i => i
  | .moved _ dst => dst

/-- Modelled from the spec: the sorted list after one event (§4.3.3), computed by code that is
not available: the room is removed when the user left it, and updated with its new summary
otherwise. -/
def roomsAfter (cs : ConnState) (ev : EventData) : List SortableRoom :=
  if isLeave cs.userID ev then remove cs.rooms ev.roomID
  else (update cs.sort cs.rooms (summaryAfter cs ev)).1

/-- Modelled from the spec: the ops one event contributes (the table of §4.3.3), computed by
code that is not available. -/
def eventOps (cs : ConnState) (ev : EventData) : List ResponseOp :=
  let pOld := position_of cs.rooms ev.roomID
  if isLeave cs.userID ev then
    match pOld with
    | some a => leaveOps cs.ranges (roomsAfter cs ev) a
    | none => []
  else
    moveOps cs.ranges (roomsAfter cs ev) pOld
      (newPosition pOld (update cs.sort cs.rooms (summaryAfter cs ev)).2) ev

/-- Modelled from the spec: the per-event diff algorithm of §4.3.3, whose source is not
available, on the connection and the response being built: the stored summary is updated, the
list is updated, the ops are appended in arrival order, and the subscription side effect is
applied. The event record of §3 carries no stream position, so the watermark comparison of
§4.3.1 is not expressible and every queued notification is applied. -/
def processEvent (st : ConnState × Response) (ev : EventData) : ConnState × Response :=
  let cs := st.1
  let resp := st.2
  ({ cs with store := cs.store.setRoom (summaryAfter cs ev), rooms := roomsAfter cs ev },
   { resp with
     Ops := resp.Ops ++ eventOps cs ev
     RoomSubscriptions := subscriptionUpdate cs.subscriptions resp.RoomSubscriptions ev })

/-- Modelled from the spec: step 3 of §4.3.2, whose source is not available: the queued events
are applied in FIFO order. -/
def drain (cs : ConnState) (resp : Response) (events : List EventData) : ConnState × Response :=
  events.foldl processEvent (cs, resp)

/-- Modelled from the spec: the load of §4.3.1, whose source is not available: on the first
request the joined rooms and the watermark come from the store, and `L` is built under the
request's sort (default `by_recency`). -/
def load (cs : ConnState) (req : Request) : ConnState :=
  if cs.loaded then cs
  else
    let joined := cs.store.Load cs.userID
    let c := req.SortBy.getD .by_recency
    { cs with loaded := true, loadPosition := joined.2, sort := c,
              rooms := build (joined.1.map cs.store.LoadRoom) c }

/-- Modelled from the spec: the validation of the requested ranges (§7, malformed request),
whose source is not available: `none` when an interval has a negative index or `hi < lo`, else
the canonicalised range set. -/
def parseRanges (rooms : List (Int × Int)) : Option RangeSet :=
  if rooms.all (fun iv => decide (0 ≤ iv.1) && decide (iv.1 ≤ iv.2)) then
    some (canonicalise (rooms.map (fun iv => (iv.1.toNat, iv.2.toNat))))
  else none

/-- Modelled from the spec: step 1 of §4.3.2, whose source is not available: unsubscribe, then
add or replace the requested subscriptions. -/
def applySubscriptions (S : List (String × RoomSubscription)) (req : Request) :
    List (String × RoomSubscription) :=
  req.RoomSubscriptions.foldl (fun m kv => assocSet m kv.1 kv.2)
    (req.UnsubscribeRooms.foldl assocErase S)

/-- Modelled from the spec: step 2 of §4.3.2, whose source is not available: one `SYNC` per
interval that is new since the previous response, carrying the rooms currently at its positions;
an interval that is empty once clamped to `[0, N-1]` is dropped. The op reports the interval as
requested, as `TestConnStateInitial` expects (`SYNC [0,9]` for three rooms). -/
def syncOps (L : List SortableRoom) (added : RangeSet) : List ResponseOp :=
  added.filterMap (fun iv =>
    if iv.1 < L.length then
      some (.SYNC iv (((L.drop iv.1).take (iv.2 + 1 - iv.1)).map fullRoom))
    else none)

/-- Modelled from the spec: the emptiness test of step 4 of §4.3.2, whose source is not
available: no ops and no subscription entries. -/
def Response.isEmpty (resp : Response) : Bool :=
  resp.Ops.isEmpty && resp.RoomSubscriptions.isEmpty

/-- Modelled from the spec: the long-poll wait of §4.3.4, whose source is not available. `wakes`
lists the batches of events that reach the queue while the request is blocked, in order; when
they run out the deadline or the cancellation has fired and the current response is returned.
After each wake step 3 runs on the newly drained events; batches that were not consumed stay
queued. -/
def waitLoop (cs : ConnState) (resp : Response) : List (List EventData) → ConnState × Response
  | [] => (cs, resp)
  | batch :: rest =>
    let st := drain cs resp batch
    if st.2.isEmpty then waitLoop st.1 st.2 rest
    else ({ st.1 with queue := rest.flatten }, st.2)

/-- Modelled from the spec: the initial emissions of step 1 of §4.3.2, built by code that is not
available: one entry per requested subscription. -/
def initialEmissions (cs : ConnState) (req : Request) : List (String × Room) :=
  req.RoomSubscriptions.foldl (fun m kv => assocSet m kv.1 (initialRoomData cs kv.1 kv.2)) []

/-- Modelled from the spec: step 4 of §4.3.2 and the return, whose source is not available:
block while the response is empty, then report `Count`, the length of `L` after all events are
applied. -/
def respond (st : ConnState × Response) (wakes : List (List EventData)) : Response × ConnState :=
  let st := if st.2.isEmpty then waitLoop st.1 st.2 wakes else st
  ({ st.2 with Count := st.1.rooms.length }, st.1)

/-- Modelled from the spec: the request handler `ConnState.HandleIncomingRequest` of §4.3.2,
whose source is not available. An invalidated connection and a malformed request are errors that
leave the state as it was. Otherwise: load on the first request, apply the subscription deltas
(each requested subscription gets its initial emission), reconcile the ranges, drain the queue,
and block while the response is empty. -/
def HandleIncomingRequest (cs : ConnState) (req : Request) (wakes : List (List EventData)) :
    Except RequestError (Response × ConnState) :=
  if cs.invalidated then .error .invalidated
  else
    match parseRanges req.Rooms with
    | none => .error (.malformed "rooms")
    | some R =>
      let cs := load cs req
      let resp : Response :=
        { Ops := syncOps cs.rooms (added_since R cs.ranges)
          RoomSubscriptions := initialEmissions cs req }
      .ok (respond
        (drain
          { cs with
            subscriptions := applySubscriptions cs.subscriptions req, ranges := R, queue := [] }
          resp cs.queue)
        wakes)

/-- Sub-intervals of `iv`: every member of `l` lies within `iv` and is non-empty. -/
def piecesOf (iv : Nat × Nat) (l : RangeSet) : Prop :=
  ∀ x ∈ l, iv.1 ≤ x.1 ∧ x.2 ≤ iv.2 ∧ x.1 ≤ x.2

end sync3


/-! ## The fixtures of sync3/connstate_test.go -/

namespace sync3

/-- The helper `newSortableRoom` of `connstate_test.go`. -/
def newSortableRoom (roomID : String) (lastMsgTimestamp : Int) : SortableRoom :=
  { RoomID := roomID
    Name := "Room " ++ roomID
    LastMessageTimestamp := lastMsgTimestamp
    LastEventJSON :=
      "\x7b\"type\":\"m.room.message\",\"content\":\x7b\"body\":\"hello\"\x7d," ++
        "\"origin_server_ts\":" ++
        toString lastMsgTimestamp ++ "\x7d" }

/-- The mock `connStateStoreMock` of `connstate_test.go`: a room map and the joined rooms of the one
user of the tests; a room that is not in the map reads as the zero value. -/
def connStateStoreMock (rooms : List SortableRoom) (joined : List String) : Store :=
  { Load := fun _ => (joined, 1)
    LoadRoom := fun id =>
      (rooms.find? (fun r => r.RoomID = id)).getD
        { RoomID := "", Name := "", LastMessageTimestamp := 0, LastEventJSON := "" }
    LoadState := fun _ _ _ => []
    LoadUserRoomData := fun _ _ => {} }

/-- The method `connStateStoreMock.PushNewEvent`: the mock updates its room map, then pushes the
event to the connection. -/
def mockPushNewEvent (cs : ConnState) (ed : EventData) : ConnState :=
  PushNewEvent
    { cs with store := cs.store.setRoom (newSummary (cs.store.LoadRoom ed.roomID) ed) } ed

/-- The value `timestampNow` of the tests. -/
def timestampNow : Int := 1632131678061

/-- The response of a request, `none` on error. -/
def responseOf (r : Except RequestError (Response × ConnState)) : Option Response :=
  match r with
  | .ok x => some x.1
  | .error _ => none

/-- The connection after a request; unchanged on error. -/
def stateAfter (cs : ConnState) (r : Except RequestError (Response × ConnState)) : ConnState :=
  match r with
  | .ok x => x.2
  | .error _ => cs

/-- The ten rooms of `TestConnStateMultipleRanges`: room `i` has timestamp `now - 1000 i`. -/
def tenRooms : List SortableRoom :=
  (List.range 10).map (fun i =>
    { RoomID := "!" ++ toString i ++ ":localhost", Name := "Room " ++ toString i,
      LastMessageTimestamp := timestampNow - 1000 * i, LastEventJSON := "\x7b\x7d" })

/-- The two ranges of `TestConnStateMultipleRanges`. -/
def twoRanges : Request := { SortBy := some .by_recency, Rooms := [(0, 2), (4, 6)] }

/-- The fresh connection of `TestConnStateMultipleRanges`. -/
def multipleRangesFresh : ConnState :=
  NewConnState "@alice:localhost" (connStateStoreMock tenRooms (tenRooms.map (·.RoomID)))

/-- The request for the first page of `TestConnStateMultipleRanges`. -/
def firstPage : Request := { SortBy := some .by_recency, Rooms := [(0, 2)] }

/-- The connection of `TestConnStateMultipleRanges` after the first page was fetched. -/
def multipleRangesPaged : ConnState :=
  stateAfter multipleRangesFresh (HandleIncomingRequest multipleRangesFresh firstPage [])

/-- The event of `TestConnStateMultipleRanges` that pulls room 8 to the top. -/
def room8Event : EventData :=
  { event := "\x7b\x7d", roomID := "!8:localhost", eventType := "unimportant",
    timestamp := timestampNow + 2000 }

/-- The connection of `TestConnStateMultipleRanges` after the second range was added and the
event for room 8 was pushed. -/
def multipleRangesBumped : ConnState :=
  mockPushNewEvent
    (stateAfter multipleRangesPaged (HandleIncomingRequest multipleRangesPaged twoRanges []))
    room8Event

/-- The connection of `TestConnStateMultipleRanges` up to the push of the event that pulls room
9 to position 3: first page, second range, room 8 bumped to the top and fetched. -/
def multipleRangesState : ConnState :=
  stateAfter multipleRangesBumped (HandleIncomingRequest multipleRangesBumped twoRanges [])

/-- The event of `TestConnStateMultipleRanges` for room 9, with the timestamp midway between
rooms 1 and 2. -/
def room9Event : EventData :=
  { event := "\x7b\x7d", roomID := "!9:localhost", eventType := "unimportant",
    timestamp := timestampNow - 1500 }

/-- The three rooms of `TestConnStateInitial`: A, B, C with B the most recent. -/
def threeRooms : List SortableRoom :=
  [newSortableRoom "!a:localhost" (timestampNow - 8000),
   newSortableRoom "!b:localhost" timestampNow,
   newSortableRoom "!c:localhost" (timestampNow - 4000)]

/-- The request of `TestConnStateInitial`. -/
def firstTen : Request := { SortBy := some .by_recency, Rooms := [(0, 9)] }

/-- The mock store of `TestConnStateInitial`. -/
def threeRoomStore : Store :=
  connStateStoreMock threeRooms (threeRooms.map (·.RoomID))

/-- The fresh connection of `TestConnStateInitial`. -/
def initialState : ConnState :=
  NewConnState "@alice:localhost" threeRoomStore

/-- The event that bumps room A. -/
def bumpA (ts : Int) : EventData :=
  { event := "\x7b\x7d", roomID := "!a:localhost", eventType := "unimportant", timestamp := ts }

/-- The connection of `TestConnStateInitial` after the first response and the push of the event
that bumps A to the top. -/
def bumpedState : ConnState :=
  mockPushNewEvent (stateAfter initialState (HandleIncomingRequest initialState firstTen []))
    (bumpA (timestampNow + 1000))

/-- The connection of `TestConnStateInitial` after the second response and the push of another
event for A. -/
def updatedState : ConnState :=
  mockPushNewEvent (stateAfter bumpedState (HandleIncomingRequest bumpedState firstTen []))
    (bumpA (timestampNow + 2000))

/-- The four rooms of `TestBumpToOutsideRange` and `TestConnStateRoomSubscriptions`. -/
def fourRooms : List SortableRoom :=
  [newSortableRoom "!a:localhost" timestampNow,
   newSortableRoom "!b:localhost" (timestampNow - 1000),
   newSortableRoom "!c:localhost" (timestampNow - 2000),
   newSortableRoom "!d:localhost" (timestampNow - 3000)]

/-- The request for the first two positions. -/
def firstTwo : Request := { SortBy := some .by_recency, Rooms := [(0, 1)] }

/-- The fresh connection of the four-room tests. -/
def fourRoomState : ConnState :=
  NewConnState "@alice:localhost" (connStateStoreMock fourRooms (fourRooms.map (·.RoomID)))

/-- An event for room D. -/
def eventD (ts : Int) : EventData :=
  { event := "\x7b\x7d", roomID := "!d:localhost", eventType := "unimportant", timestamp := ts }

/-- The connection of `TestBumpToOutsideRange` after the first response and the push of the
event that moves D to the position of C. -/
def outsideBumpState : ConnState :=
  mockPushNewEvent (stateAfter fourRoomState (HandleIncomingRequest fourRoomState firstTwo []))
    (eventD (timestampNow - 2000 + 2))

/-- The first request of `TestConnStateRoomSubscriptions`, subscribing to D with the given
timeline limit. -/
def subscribeD (limit : Nat) : Request :=
  { SortBy := some .by_recency, Rooms := [(0, 1)],
    RoomSubscriptions := [("!d:localhost", { TimelineLimit := limit })] }

/-- The connection of `TestConnStateRoomSubscriptions` after the subscribing request and the
push of a new event for D. -/
def subscribedState (limit : Nat) : ConnState :=
  mockPushNewEvent
    (stateAfter fourRoomState (HandleIncomingRequest fourRoomState (subscribeD limit) []))
    (eventD (timestampNow + 2000))

end sync3

/-! ## Theorems: synclive/tracker.go -/

namespace synclive

theorem removeLoop_fuel (id : String) (fuel : Nat) :
    ∀ (i : Nat) (s : List String), s.length - i ≤ fuel →
      removeLoop id (fuel + 1) i s = removeLoop id fuel i s := by
  induction fuel with
  | zero =>
    intro i s h
    have hi : ¬ i < s.length := by omega
    simp [removeLoop, hi]
  | succ n ih =>
    intro i s h
    rw [removeLoop]
    conv_rhs => rw [removeLoop]
    by_cases hi : i < s.length
    · simp only [hi, dite_true]
      by_cases hid : id = s[i]
      · rw [if_pos hid, if_pos hid]
        apply ih
        simp only [List.length_take, List.length_set]
        omega
      · rw [if_neg hid, if_neg hid]
        apply ih
        omega
    · simp [hi]

end synclive

namespace synclive

theorem mapStore_same (m : String → List String) (k : String) (v : List String) :
    mapStore m k v k = v := by
  simp [mapStore]

theorem mapStore_other (m : String → List String) (k k' : String) (v : List String)
    (h : k' ≠ k) : mapStore m k v k' = m k' := by
  simp [mapStore, h]

/-- A slice without the id is returned as it is. -/
theorem removeLoop_of_not_mem (id : String) (fuel : Nat) :
    ∀ (i : Nat) (s : List String), id ∉ s → removeLoop id fuel i s = s := by
  induction fuel with
  | zero => intro i s _; rfl
  | succ n ih =>
    intro i s h
    rw [removeLoop]
    by_cases hi : i < s.length
    · rw [dif_pos hi]
      have hne : ¬ id = s[i] := fun he => h (he ▸ List.getElem_mem hi)
      rw [if_neg hne]
      exact ih (i + 1) s h
    · rw [dif_neg hi]

/-- On a slice without repeated entries the loop removes the id, whatever part has been
scanned without a match. -/
theorem removeLoop_nodup (id : String) (fuel : Nat) :
    ∀ (i : Nat) (s : List String), s.Nodup →
      (∀ j (hj : j < s.length), j < i → s[j] ≠ id) → s.length - i ≤ fuel →
      id ∉ removeLoop id fuel i s := by
  have hdone : ∀ (i : Nat) (s : List String),
      (∀ j (hj : j < s.length), j < i → s[j] ≠ id) → s.length ≤ i → id ∉ s := by
    intro i s hs hle hmem
    obtain ⟨j, hj, hjid⟩ := List.getElem_of_mem hmem
    exact hs j hj (by omega) hjid
  induction fuel with
  | zero =>
    intro i s _ hs hf
    rw [removeLoop]
    exact hdone i s hs (by omega)
  | succ n ih =>
    intro i s hnd hs hf
    rw [removeLoop]
    by_cases hi : i < s.length
    · rw [dif_pos hi]
      by_cases hid : id = s[i]
      · rw [if_pos hid]
        have hl : s.length - 1 < s.length := by omega
        have hnot : id ∉ (s.set i s[s.length - 1]).take (s.length - 1) := by
          intro hmem
          obtain ⟨j, hj, hjid⟩ := List.getElem_of_mem hmem
          simp only [List.length_take, List.length_set] at hj
          rw [List.getElem_take, List.getElem_set] at hjid
          have hinj := List.nodup_iff_injective_get.mp hnd
          by_cases hij : i = j
          · rw [if_pos hij] at hjid
            have : (⟨s.length - 1, by omega⟩ : Fin s.length) = ⟨i, hi⟩ := by
              apply hinj
              simp only [List.get_eq_getElem]
              rw [hjid, hid]
            have := congrArg Fin.val this
            simp only at this
            omega
          · rw [if_neg hij] at hjid
            have : (⟨j, by omega⟩ : Fin s.length) = ⟨i, hi⟩ := by
              apply hinj
              simp only [List.get_eq_getElem]
              rw [hjid, hid]
            have := congrArg Fin.val this
            simp only at this
            omega
        show id ∉ removeLoop id n (i + 1) ((s.set i s[s.length - 1]).take (s.length - 1))
        rw [removeLoop_of_not_mem id n _ _ hnot]
        exact hnot
      · rw [if_neg hid]
        apply ih (i + 1) s hnd _ (by omega)
        intro j hj hlt
        by_cases hji : j = i
        · subst hji
          exact fun he => hid he.symm
        · exact hs j hj (by omega)
    · rw [dif_neg hi]
      exact hdone i s hs (by omega)
/-- Where neither list holds a repeated entry, `UserLeftRoom(u, r)` does remove the pair in
both directions. -/
theorem UserLeftRoom_removes_of_nodup (t : JoinedRoomsTracker) (u r : String)
    (hr : (JoinedRoomsForUser t u).Nodup) (hu : (JoinedUsersForRoom t r).Nodup) :
    r ∉ JoinedRoomsForUser (UserLeftRoom t u r) u ∧
      u ∉ JoinedUsersForRoom (UserLeftRoom t u r) r := by
  simp only [JoinedRoomsForUser, JoinedUsersForRoom, UserLeftRoom, mapStore_same] at *
  exact ⟨removeLoop_nodup r _ 0 _ hr (fun j _ h => absurd h (Nat.not_lt_zero j)) (by omega),
    removeLoop_nodup u _ 0 _ hu (fun j _ h => absurd h (Nat.not_lt_zero j)) (by omega)⟩

/-- C1 (code defect). Bi-index coherence does not survive `UserLeftRoom` once a pair has been
joined twice: after `u` joins `r` twice, `v` joins `r`, and `u` leaves `r`, the swap-remove
loop has skipped the second `r` in the rooms of `u` (the swapped-in element is never examined)
while it removed both `u` from the users of `r`; `r` is still listed for `u` and `u` is no
longer listed for `r`. -/
theorem C1_coherence_broken_by_swap_remove :
    JoinedRoomsForUser
        (run [.joined "@u" "!r", .joined "@u" "!r", .joined "@v" "!r", .left "@u" "!r"])
        "@u" = ["!r"] ∧
      JoinedUsersForRoom
        (run [.joined "@u" "!r", .joined "@u" "!r", .joined "@v" "!r", .left "@u" "!r"])
        "!r" = ["@v"] ∧
      ¬ ("!r" ∈ JoinedRoomsForUser
            (run [.joined "@u" "!r", .joined "@u" "!r", .joined "@v" "!r", .left "@u" "!r"])
            "@u" ↔
          "@u" ∈ JoinedUsersForRoom
            (run [.joined "@u" "!r", .joined "@u" "!r", .joined "@v" "!r", .left "@u" "!r"])
            "!r") := by
  decide

/-- C2 (code defect). After `u` has joined `r` twice, `UserLeftRoom(u, r)` leaves `r` in
`JoinedRoomsForUser(u)` and `u` in `JoinedUsersForRoom(r)`: the loop overwrites index 0 with
the last element, which is the other copy, shortens the slice and moves on to index 1. -/
theorem C2_left_room_still_listed :
    JoinedRoomsForUser
        (UserLeftRoom (run [.joined "@u" "!r", .joined "@u" "!r"]) "@u" "!r") "@u" = ["!r"] ∧
      JoinedUsersForRoom
        (UserLeftRoom (run [.joined "@u" "!r", .joined "@u" "!r"]) "@u" "!r") "!r" = ["@u"] := by
  decide

/-- C3. After `UserJoinedRoom(u, r)`, `JoinedRoomsForUser(u)` is its previous value with `r`
appended at the end and `JoinedUsersForRoom(r)` is its previous value with `u` appended at the
end; so `r` is a member of the first and `u` a member of the second. -/
theorem C3_join_appends (t : JoinedRoomsTracker) (u r : String) :
    JoinedRoomsForUser (UserJoinedRoom t u r) u = JoinedRoomsForUser t u ++ [r] ∧
      JoinedUsersForRoom (UserJoinedRoom t u r) r = JoinedUsersForRoom t r ++ [u] ∧
      r ∈ JoinedRoomsForUser (UserJoinedRoom t u r) u ∧
      u ∈ JoinedUsersForRoom (UserJoinedRoom t u r) r := by
  simp [JoinedRoomsForUser, JoinedUsersForRoom, UserJoinedRoom, mapStore]

end synclive

/-! ## Theorems: sync2/client.go -/

namespace sync2

theorem syncV2URL_eq (d since : String) :
    syncV2URL d since =
      if since = "" then d ++ "/_matrix/client/r0/sync?timeout=30000"
      else d ++ "/_matrix/client/r0/sync?timeout=30000&since=" ++ since := by
  have e1 : "/_matrix/client/r0/sync" ++ "?timeout=30000" =
      "/_matrix/client/r0/sync?timeout=30000" := by decide
  have e2 : "/_matrix/client/r0/sync?timeout=30000" ++ "&since=" =
      "/_matrix/client/r0/sync?timeout=30000&since=" := by decide
  simp only [syncV2URL]
  by_cases h : since = ""
  · simp only [h, ne_eq, not_true_eq_false, if_false, if_true]
    rw [String.append_assoc, e1]
  · simp only [h, ne_eq, not_false_eq_true, if_true, if_false]
    rw [String.append_assoc, ← String.append_assoc "?timeout=30000",
      ← String.append_assoc "/_matrix/client/r0/sync",
      ← String.append_assoc "/_matrix/client/r0/sync",
      e1, e2, ← String.append_assoc]

theorem setHeaders_new (method u authHeader : String) :
    setHeaders { Method := method, URL := u, Header := [] } authHeader =
      { Method := method, URL := u,
        Header := [("User-Agent", "sync-v3-proxy"), ("Authorization", authHeader)] } := by
  have h : ¬ "User-Agent" = "Authorization" := by decide
  simp [setHeaders, headerSet, h]

/-- When `http.NewRequest` rejects the URL string, `DoSyncV2` sends nothing and ends in the
nil dereference, whatever the rest of its input. -/
theorem DoSyncV2_rejected {SyncResponse : Type} (parseURL : String → Except String String)
    (decode : String → Except String SyncResponse) (v : HTTPClient) (authHeader since e : String)
    (hrej : parseURL (syncV2URL v.DestinationServer since) = .error e) :
    (DoSyncV2 parseURL decode v authHeader since).sent = [] ∧
      (DoSyncV2 parseURL decode v authHeader since).outcome = .nilDeref := by
  simp only [DoSyncV2, NewRequest, hrej, and_self]

/-- When `http.NewRequest` accepts the URL string, `DoSyncV2` returns a triple
`(res, status, err)` in which `err` is nil exactly when `res` is non-nil, exactly when the
upstream answered 200 with a body that decodes, and then `status` is 200; an upstream status
`s ≠ 200` gives `(nil, s, non-nil error)`; a transport failure and a 200 body that fails to
decode give `(nil, 0, non-nil error)`. -/
theorem DoSyncV2_result_of_request {SyncResponse : Type}
    (parseURL : String → Except String String)
    (decode : String → Except String SyncResponse) (v : HTTPClient)
    (authHeader since u : String)
    (hreq : parseURL (syncV2URL v.DestinationServer since) = .ok u) :
    ∃ res status err,
      (DoSyncV2 parseURL decode v authHeader since).outcome = .ret res status err ∧
      (err = none ↔ res ≠ none) ∧
      (res ≠ none ↔ ∃ st body svr,
        v.Do (setHeaders ⟨"GET", u, []⟩ authHeader) = .res 200 st body ∧
          decode body = .ok svr) ∧
      (res ≠ none → status = 200) ∧
      (∀ s st body, s ≠ 200 → v.Do (setHeaders ⟨"GET", u, []⟩ authHeader) = .res s st body →
        res = none ∧ status = s ∧ err ≠ none) ∧
      (∀ e, v.Do (setHeaders ⟨"GET", u, []⟩ authHeader) = .err e →
        res = none ∧ status = 0 ∧ err ≠ none) ∧
      (∀ st body e, v.Do (setHeaders ⟨"GET", u, []⟩ authHeader) = .res 200 st body →
        decode body = .error e → res = none ∧ status = 0 ∧ err ≠ none) := by
  simp only [DoSyncV2, NewRequest, hreq]
  cases hdo : v.Do (setHeaders ⟨"GET", u, []⟩ authHeader) with
  | err e =>
    refine ⟨none, 0, some (.requestFailed e), rfl, by simp, ?_, by simp, ?_, by simp, ?_⟩
    · simp
    · intro s st body _ h; cases h
    · intro st body e h; cases h
  | res sc st body =>
    by_cases h200 : sc = 200
    · subst h200
      cases hdec : decode body with
      | error e =>
        refine ⟨none, 0, some (.decodeFailed e), by simp [hdec], by simp, ?_, by simp, ?_,
          by simp, by simp⟩
        · simp only [ne_eq, not_true_eq_false, false_iff, not_exists, not_and]
          intro st' body' svr h
          cases h
          simp [hdec]
        · intro s st' body' hs h
          cases h
          exact absurd rfl hs
      | ok svr =>
        refine ⟨some svr, 200, none, by simp [hdec], by simp, ?_, by simp, ?_, by simp, ?_⟩
        · simp only [ne_eq, reduceCtorEq, not_false_eq_true, true_iff]
          exact ⟨st, body, svr, rfl, hdec⟩
        · intro s st' body' hs h
          cases h
          exact absurd rfl hs
        · intro st' body' e h hd
          cases h
          rw [hdec] at hd
          cases hd
    · refine ⟨none, sc, some (.responseReturned st), by simp [h200], by simp, ?_, by simp, ?_,
        by simp, ?_⟩
      · simp only [ne_eq, not_true_eq_false, false_iff, not_exists, not_and]
        intro st' body' svr h
        cases h
        exact absurd rfl h200
      · intro s st' body' _ h
        cases h
        simp
      · intro st' body' e h
        cases h
        exact absurd rfl h200

/-- C4 (code defect). With a since token that holds a control character `http.NewRequest`
rejects the URL string, and `DoSyncV2` neither returns a response nor an error: the
`req.Header.Set` placed before the `err != nil` check dereferences the nil request. The
upstream here would answer 200 with a decodable body to any request; none is sent. -/
theorem C4_DoSyncV2_nil_deref :
    (DoSyncV2 controlBytesRejected (fun b => (Except.ok b.length : Except String Nat))
        ⟨fun _ => .res 200 "200 OK" "ok", "https://hs"⟩ "Bearer t" "a\nb").outcome =
      .nilDeref := by
  rfl

/-- C5, as stated, fails for a since token that holds a control character: `http.NewRequest`
rejects the URL string and `DoSyncV2` requests no URL at all. -/
theorem C5_counterexample_rejected_url :
    syncV2URL "https://hs" "a\nb" =
        "https://hs/_matrix/client/r0/sync?timeout=30000&since=a\nb" ∧
      (DoSyncV2 controlBytesRejected (fun b => (Except.ok b.length : Except String Nat))
        ⟨fun _ => .res 200 "200 OK" "ok", "https://hs"⟩ "Bearer t" "a\nb").sent = [] := by
  decide

/-- C5 (amended). For every destination server `d` and since token `s`, the URL string
`DoSyncV2` hands to `http.NewRequest` is `d` followed by
`/_matrix/client/r0/sync?timeout=30000` when `s` is empty, and by
`/_matrix/client/r0/sync?timeout=30000&since=` and `s` itself, unescaped, otherwise; when the
library accepts that string `DoSyncV2` sends exactly one request, a `GET` of the URL parsed from
it with the two headers set, and when the library rejects it no request is sent. -/
theorem C5_sync_request {SyncResponse : Type} (parseURL : String → Except String String)
    (decode : String → Except String SyncResponse) (v : HTTPClient) (authHeader since : String) :
    (DoSyncV2 parseURL decode v authHeader since).sent =
      match parseURL
        (if since = "" then v.DestinationServer ++ "/_matrix/client/r0/sync?timeout=30000"
         else v.DestinationServer ++ "/_matrix/client/r0/sync?timeout=30000&since=" ++ since) with
      | .ok u =>
        [{ Method := "GET", URL := u,
           Header := [("User-Agent", "sync-v3-proxy"), ("Authorization", authHeader)] }]
      | .error _ => [] := by
  rw [← syncV2URL_eq]
  unfold DoSyncV2 NewRequest
  cases parseURL (syncV2URL v.DestinationServer since) with
  | error e => rfl
  | ok u =>
    simp only
    rw [setHeaders_new]

/-- The request `DoSyncV2` sends for the server `https://hs` and the since token `s1`. -/
theorem DoSyncV2_sent_example :
    (DoSyncV2 controlBytesRejected (fun b => (Except.ok b.length : Except String Nat))
      ⟨fun _ => .res 200 "200 OK" "ok", "https://hs"⟩ "Bearer t" "s1").sent =
      [⟨"GET", "https://hs/_matrix/client/r0/sync?timeout=30000&since=s1",
        [("User-Agent", "sync-v3-proxy"), ("Authorization", "Bearer t")]⟩] := by
  decide

/-- C11, as stated, fails when `http.NewRequest` rejects the URL string (here a destination
server that ends in a line feed): `WhoAmI` returns a non-nil error and the empty user ID
although no transport failed, no status other than 200 came back and no body was unreadable;
the upstream would answer any request with 200 and a readable body. -/
theorem C11_counterexample_rejected_url :
    WhoAmI controlBytesRejected Except.ok (fun b _ => b)
        ⟨fun _ => .res 200 "200 OK" "@alice:hs", "https://hs\n"⟩ "Bearer t" =
      ("", some (.newRequest "net/url: invalid control character in URL")) := by
  decide

/-- C11 (amended). `WhoAmI` returns a non-nil error together with the empty user ID exactly
when `http.NewRequest` rejects the URL string, or the request is built and the transport fails,
or the status is not 200, or the body cannot be read; and when the request is built, the status
is 200 and the body is read it returns a nil error with the string value of the top-level
`user_id` field of the body. -/
theorem C11_WhoAmI_result (parseURL : String → Except String String)
    (readAll : String → Except String String) (gjsonStr : String → String → String)
    (v : HTTPClient) (authHeader : String) :
    (((WhoAmI parseURL readAll gjsonStr v authHeader).2 ≠ none ∧
        (WhoAmI parseURL readAll gjsonStr v authHeader).1 = "") ↔
      ((∃ e, parseURL (whoAmIURL v.DestinationServer) = .error e) ∨
        ∃ u, parseURL (whoAmIURL v.DestinationServer) = .ok u ∧
          ((∃ e, v.Do (setHeaders ⟨"GET", u, []⟩ authHeader) = .err e) ∨
            (∃ sc st body,
              v.Do (setHeaders ⟨"GET", u, []⟩ authHeader) = .res sc st body ∧ sc ≠ 200) ∨
            (∃ sc st body e, v.Do (setHeaders ⟨"GET", u, []⟩ authHeader) = .res sc st body ∧
              readAll body = .error e)))) ∧
      (∀ u st body bytes, parseURL (whoAmIURL v.DestinationServer) = .ok u →
        v.Do (setHeaders ⟨"GET", u, []⟩ authHeader) = .res 200 st body →
        readAll body = .ok bytes →
        WhoAmI parseURL readAll gjsonStr v authHeader = (gjsonStr bytes "user_id", none)) := by
  unfold WhoAmI NewRequest
  cases hp : parseURL (whoAmIURL v.DestinationServer) with
  | error e =>
    simp only
    refine ⟨⟨fun _ => Or.inl ⟨e, rfl⟩, fun _ => ⟨by simp, trivial⟩⟩, ?_⟩
    intro u st body bytes h
    cases h
  | ok u =>
    simp only
    cases hdo : v.Do (setHeaders ⟨"GET", u, []⟩ authHeader) with
    | err e =>
      simp only
      refine ⟨⟨fun _ => Or.inr ⟨u, rfl, Or.inl ⟨e, hdo⟩⟩, fun _ => ⟨by simp, trivial⟩⟩, ?_⟩
      intro u' st body bytes hu h
      cases hu
      rw [hdo] at h
      cases h
    | res sc st body =>
      simp only
      by_cases h200 : sc = 200
      · subst h200
        cases hrd : readAll body with
        | error e =>
          simp only [ne_eq, not_true_eq_false, if_false]
          refine ⟨⟨fun _ => Or.inr ⟨u, rfl, Or.inr (Or.inr ⟨200, st, body, e, hdo, hrd⟩)⟩,
            fun _ => ⟨by simp, trivial⟩⟩, ?_⟩
          intro u' st' body' bytes hu h hr
          cases hu
          rw [hdo] at h
          cases h
          rw [hrd] at hr
          cases hr
        | ok bytes =>
          simp only [ne_eq, not_true_eq_false, if_false]
          refine ⟨⟨fun h => h.1.elim, ?_⟩, ?_⟩
          · rintro (⟨e, h⟩ | ⟨u', hu, hrest⟩)
            · cases h
            · cases hu
              rw [hdo] at hrest
              rcases hrest with ⟨e, h⟩ | ⟨sc, st', body', h, hne⟩ | ⟨sc, st', body', e, h, hr⟩
              · cases h
              · cases h
                exact absurd rfl hne
              · cases h
                rw [hrd] at hr
                cases hr
          · intro u' st' body' bytes' hu h hr
            cases hu
            rw [hdo] at h
            cases h
            rw [hrd] at hr
            cases hr
            rfl
      · simp only [ne_eq, h200, not_false_eq_true, if_true]
        refine ⟨⟨fun _ => Or.inr ⟨u, rfl, Or.inr (Or.inl ⟨sc, st, body, hdo, h200⟩)⟩,
          fun _ => ⟨by simp, trivial⟩⟩, ?_⟩
        intro u' st' body' bytes hu h
        cases hu
        rw [hdo] at h
        cases h
        exact absurd rfl h200

/-- Witness for C11: a server that answers `200`, with a body that is read. -/
theorem C11_WhoAmI_result_witness :
    controlBytesRejected (whoAmIURL "https://hs") =
        .ok "https://hs/_matrix/client/r0/account/whoami" ∧
      WhoAmI controlBytesRejected Except.ok (fun b _ => b)
          ⟨fun _ => .res 200 "200 OK" "@alice:hs", "https://hs"⟩ "Bearer t" =
        ("@alice:hs", none) :=
  ⟨rfl, (C11_WhoAmI_result controlBytesRejected Except.ok (fun b _ => b)
    ⟨fun _ => .res 200 "200 OK" "@alice:hs", "https://hs"⟩ "Bearer t").2
      "https://hs/_matrix/client/r0/account/whoami" "200 OK" "@alice:hs" "@alice:hs"
      rfl rfl rfl⟩

/-- A `200` reply whose body has no `user_id` string: `WhoAmI` returns the empty user ID with a
nil error. -/
theorem WhoAmI_no_user_id :
    WhoAmI controlBytesRejected (fun b => Except.ok b) (fun _ _ => "")
      ⟨fun _ => .res 200 "200 OK" "\x7b\x7d", "https://hs"⟩ "Bearer t" = ("", none) := by
  decide

end sync2

/-! ## Theorems: the connection window engine (sync3) -/

namespace sync3

theorem position_of_get {L : List SortableRoom} {id : String} {p : Nat}
    (h : position_of L id = some p) : ∃ r, L[p]? = some r ∧ r.RoomID = id := by
  induction L generalizing p with
  | nil => simp [position_of] at h
  | cons x xs ih =>
    rw [position_of] at h
    by_cases hx : x.RoomID = id
    · rw [if_pos hx] at h
      cases h
      exact ⟨x, by simp, hx⟩
    · rw [if_neg hx] at h
      cases hq : position_of xs id with
      | none => simp [hq] at h
      | some q =>
        rw [hq] at h
        simp only [Option.map_some', Option.some.injEq] at h
        subst h
        obtain ⟨r, hr, hid⟩ := ih hq
        exact ⟨r, by simpa using hr, hid⟩

theorem position_of_lt {L : List SortableRoom} {id : String} {p : Nat}
    (h : position_of L id = some p) : p < L.length := by
  obtain ⟨r, hr, _⟩ := position_of_get h
  exact (List.getElem?_eq_some_iff.mp hr).1

theorem position_of_remove (L : List SortableRoom) (id : String) :
    position_of (remove L id) id = none := by
  induction L with
  | nil => rfl
  | cons x xs ih =>
    unfold remove at ih ⊢
    simp only [ne_eq, decide_not] at ih ⊢
    by_cases hx : x.RoomID = id
    · simpa [List.filter_cons, hx] using ih
    · simp [List.filter_cons, hx, position_of, ih]

theorem position_of_set {L : List SortableRoom} {id : String} {p : Nat} {s : SortableRoom}
    (h : position_of L id = some p) (hs : s.RoomID = id) :
    position_of (L.set p s) id = some p := by
  induction L generalizing p with
  | nil => simp [position_of] at h
  | cons x xs ih =>
    rw [position_of] at h
    by_cases hx : x.RoomID = id
    · rw [if_pos hx] at h
      cases h
      simp [position_of, hs]
    · rw [if_neg hx] at h
      cases hq : position_of xs id with
      | none => simp [hq] at h
      | some q =>
        rw [hq] at h
        simp only [Option.map_some', Option.some.injEq] at h
        subst h
        simp [position_of, hx, ih hq]

theorem position_of_mem {L : List SortableRoom} {r : SortableRoom} (h : r ∈ L) :
    ∃ q, position_of L r.RoomID = some q := by
  induction L with
  | nil => simp at h
  | cons x xs ih =>
    by_cases hx : x.RoomID = r.RoomID
    · exact ⟨0, by simp [position_of, hx]⟩
    · rcases List.mem_cons.mp h with rfl | hm
      · exact absurd rfl hx
      · obtain ⟨q, hq⟩ := ih hm
        exact ⟨q + 1, by simp [position_of, hx, hq]⟩

theorem position_of_none {L : List SortableRoom} {id : String}
    (h : ∀ r ∈ L, r.RoomID ≠ id) : position_of L id = none := by
  induction L with
  | nil => rfl
  | cons x xs ih =>
    have hx : x.RoomID ≠ id := h x (List.mem_cons_self _ _)
    simp [position_of, hx, ih (fun r hr => h r (List.mem_cons_of_mem _ hr))]

theorem length_remove {L : List SortableRoom} {id : String} {p : Nat}
    (hn : (L.map (fun r => r.RoomID)).Nodup) (h : position_of L id = some p) :
    (remove L id).length + 1 = L.length := by
  induction L generalizing p with
  | nil => simp [position_of] at h
  | cons x xs ih =>
    rw [List.map_cons, List.nodup_cons] at hn
    rw [position_of] at h
    by_cases hx : x.RoomID = id
    · have hall : ∀ r ∈ xs, r.RoomID ≠ id := by
        intro r hr he
        exact hn.1 (List.mem_map.mpr ⟨r, hr, by rw [he, hx]⟩)
      simpa [remove, List.filter_cons, hx] using hall
    · rw [if_neg hx] at h
      cases hq : position_of xs id with
      | none => simp [hq] at h
      | some q =>
        have := ih hn.2 hq
        simp [remove, List.filter_cons, hx] at this ⊢
        exact this

theorem length_insert (c : SortCriterion) (L : List SortableRoom) (s : SortableRoom) :
    (insert c L s).length = L.length + 1 := by
  simp [insert, List.orderedInsert_length]

theorem mem_insert_self (c : SortCriterion) (L : List SortableRoom) (s : SortableRoom) :
    s ∈ insert c L s := by
  simp [insert, List.mem_orderedInsert]

end sync3

namespace sync3

/-! ### Range sets -/

theorem mergeInto_valid (acc : RangeSet) (iv : Nat × Nat)
    (hacc : ∀ x ∈ acc, x.1 ≤ x.2) (hiv : iv.1 ≤ iv.2) :
    ∀ x ∈ mergeInto acc iv, x.1 ≤ x.2 := by
  cases acc with
  | nil => simpa [mergeInto] using hiv
  | cons hd rest =>
    obtain ⟨lo, hi⟩ := hd
    have hhd : lo ≤ hi := hacc (lo, hi) (List.mem_cons_self _ _)
    have hrest : ∀ x ∈ rest, x.1 ≤ x.2 := fun x hx => hacc x (List.mem_cons_of_mem _ hx)
    unfold mergeInto
    by_cases hm : iv.1 ≤ hi + 1
    · simp only [hm, if_true]
      intro x hx
      rcases List.mem_cons.mp hx with rfl | hx
      · exact le_trans hhd (le_max_left _ _)
      · exact hrest x hx
    · simp only [hm, if_false]
      intro x hx
      rcases List.mem_cons.mp hx with rfl | hx
      · exact hiv
      · exact hacc x hx

theorem foldl_mergeInto_valid (l : RangeSet) :
    ∀ acc : RangeSet, (∀ x ∈ acc, x.1 ≤ x.2) → (∀ x ∈ l, x.1 ≤ x.2) →
      ∀ x ∈ l.foldl mergeInto acc, x.1 ≤ x.2 := by
  induction l with
  | nil => intro acc hacc _; simpa using hacc
  | cons iv rest ih =>
    intro acc hacc hl
    rw [List.foldl_cons]
    exact ih _ (mergeInto_valid acc iv hacc (hl iv (List.mem_cons_self _ _)))
      (fun x hx => hl x (List.mem_cons_of_mem _ hx))

theorem canonicalise_valid (R : RangeSet) (h : ∀ x ∈ R, x.1 ≤ x.2) :
    ∀ x ∈ canonicalise R, x.1 ≤ x.2 := by
  intro x hx
  unfold canonicalise at hx
  rw [List.mem_reverse] at hx
  refine foldl_mergeInto_valid _ [] (by simp) ?_ x hx
  intro y hy
  exact h y ((List.perm_insertionSort _ R).mem_iff.mp hy)

theorem parseRanges_valid {rooms : List (Int × Int)} {R : RangeSet}
    (h : parseRanges rooms = some R) : ∀ x ∈ R, x.1 ≤ x.2 := by
  unfold parseRanges at h
  split at h
  · rename_i hall
    cases h
    apply canonicalise_valid
    intro x hx
    obtain ⟨iv, hiv, rfl⟩ := List.mem_map.mp hx
    have := List.all_eq_true.mp hall iv hiv
    simp only [Bool.and_eq_true, decide_eq_true_eq] at this
    simp only
    omega
  · cases h

theorem subtractInterval_pieces {iv x p : Nat × Nat}
    (hx : iv.1 ≤ x.1 ∧ x.2 ≤ iv.2 ∧ x.1 ≤ x.2) : piecesOf iv (subtractInterval x p) := by
  intro y hy
  unfold subtractInterval at hy
  split at hy
  · simp only [List.mem_singleton] at hy
    subst hy
    exact hx
  · rename_i hd
    rw [List.mem_append] at hy
    rcases hy with hy | hy
    · split at hy
      · simp only [List.mem_singleton] at hy
        subst hy
        simp only
        omega
      · simp at hy
    · split at hy
      · simp only [List.mem_singleton] at hy
        subst hy
        simp only
        omega
      · simp at hy

theorem subtract_pieces {iv : Nat × Nat} {l : RangeSet} (p : Nat × Nat) (hl : piecesOf iv l) :
    piecesOf iv (l.flatMap (fun x => subtractInterval x p)) := by
  intro y hy
  obtain ⟨x, hx, hyx⟩ := List.mem_flatMap.mp hy
  exact subtractInterval_pieces (hl x hx) y hyx

theorem subtract_self {iv : Nat × Nat} {l : RangeSet} (hl : piecesOf iv l) :
    l.flatMap (fun x => subtractInterval x iv) = [] := by
  rw [List.flatMap_eq_nil_iff]
  intro x hx
  have := hl x hx
  unfold subtractInterval
  have h1 : ¬ (iv.2 < x.1 ∨ x.2 < iv.1) := by omega
  have h2 : ¬ x.1 < iv.1 := by omega
  have h3 : ¬ iv.2 < x.2 := by omega
  simp [h1, h2, h3]

theorem foldl_subtract_nil (l : RangeSet) :
    l.foldl (fun acc p => acc.flatMap (fun x => subtractInterval x p)) [] = [] := by
  induction l with
  | nil => rfl
  | cons p rest ih => simpa using ih

theorem foldl_subtract_mem {iv : Nat × Nat} (l : RangeSet) (hiv : iv ∈ l) :
    ∀ acc : RangeSet, piecesOf iv acc →
      l.foldl (fun acc p => acc.flatMap (fun x => subtractInterval x p)) acc = [] := by
  induction l with
  | nil => simp at hiv
  | cons p rest ih =>
    intro acc hacc
    rw [List.foldl_cons]
    rcases List.mem_cons.mp hiv with rfl | hm
    · rw [subtract_self hacc]
      exact foldl_subtract_nil rest
    · exact ih hm _ (subtract_pieces p hacc)

theorem added_since_self (R : RangeSet) (h : ∀ x ∈ R, x.1 ≤ x.2) : added_since R R = [] := by
  unfold added_since
  rw [List.flatMap_eq_nil_iff]
  intro iv hiv
  apply foldl_subtract_mem R hiv
  intro x hx
  simp only [List.mem_singleton] at hx
  subst hx
  exact ⟨le_refl _, le_refl _, h x hiv⟩

theorem inside_of_contains {R : RangeSet} {N p : Nat} (hc : contains R p = true) (hp : p < N) :
    inside R N p = true := by
  unfold inside contains clamp at *
  rw [List.any_eq_true] at hc ⊢
  obtain ⟨iv, hiv, hb⟩ := hc
  simp only [Bool.and_eq_true, decide_eq_true_eq] at hb
  refine ⟨(iv.1, min iv.2 (N - 1)), ?_, ?_⟩
  · rw [List.mem_filterMap]
    exact ⟨iv, hiv, by simp [show iv.1 < N by omega]⟩
  · simp only [Bool.and_eq_true, decide_eq_true_eq]
    omega

theorem inside_lt {R : RangeSet} {N p : Nat} (h : inside R N p = true) : p < N := by
  unfold inside contains clamp at h
  rw [List.any_eq_true] at h
  obtain ⟨iv, hiv, hb⟩ := h
  rw [List.mem_filterMap] at hiv
  obtain ⟨jv, _, hj⟩ := hiv
  split at hj
  · cases hj
    simp only [Bool.and_eq_true, decide_eq_true_eq] at hb
    omega
  · cases hj

theorem trackedBetween_mem {R : RangeSet} {N lo hi q : Nat} (h1 : lo ≤ q) (h2 : q ≤ hi)
    (hq : inside R N q = true) : q ∈ trackedBetween R N lo hi := by
  unfold trackedBetween
  rw [List.mem_filter]
  refine ⟨?_, hq⟩
  rw [List.mem_range']
  exact ⟨q - lo, by omega, by omega⟩

end sync3

namespace sync3

/-! ### One event -/

theorem summaryAfter_RoomID {cs : ConnState} {ev : EventData} {p : Nat}
    (h : position_of cs.rooms ev.roomID = some p) : (summaryAfter cs ev).RoomID = ev.roomID := by
  obtain ⟨r, hr, hid⟩ := position_of_get h
  have hlt := position_of_lt h
  unfold summaryAfter
  rw [h]
  simp only [newSummary]
  rw [List.getD_eq_getElem?_getD, hr]
  simpa using hid

theorem update_position {c : SortCriterion} {L : List SortableRoom} {s : SortableRoom} {p : Nat}
    (h : position_of L s.RoomID = some p) :
    position_of (update c L s).1 s.RoomID =
      some (newPosition (some p) (update c L s).2) := by
  unfold update
  rw [h]
  simp only
  obtain ⟨q, hq⟩ := position_of_mem (mem_insert_self c (remove L s.RoomID) s)
  rw [hq]
  simp only [Option.getD_some]
  by_cases hqp : q = p
  · rw [if_pos hqp]
    by_cases hs : L[p]? = some s
    · rw [if_pos hs]
      simpa [newPosition] using h
    · rw [if_neg hs]
      simpa [newPosition] using position_of_set h rfl
  · rw [if_neg hqp]
    simpa [newPosition] using hq

theorem update_length {c : SortCriterion} {L : List SortableRoom} {s : SortableRoom} {p : Nat}
    (hn : (L.map (fun r => r.RoomID)).Nodup) (h : position_of L s.RoomID = some p) :
    (update c L s).1.length = L.length := by
  unfold update
  rw [h]
  simp only
  split
  · split <;> simp
  · rw [length_insert, length_remove hn h]

/-- An event that leaves its room at a position of the list is not a leave, and that position
is the one `update` reports. -/
theorem position_after {cs : ConnState} {ev : EventData} {p q : Nat}
    (hold : position_of cs.rooms ev.roomID = some p)
    (hnew : position_of (roomsAfter cs ev) ev.roomID = some q) :
    isLeave cs.userID ev = false ∧
      roomsAfter cs ev = (update cs.sort cs.rooms (summaryAfter cs ev)).1 ∧
      newPosition (some p) (update cs.sort cs.rooms (summaryAfter cs ev)).2 = q := by
  have hid := summaryAfter_RoomID hold
  cases hl : isLeave cs.userID ev with
  | true =>
    rw [roomsAfter, hl, if_pos rfl, position_of_remove] at hnew
    cases hnew
  | false =>
    have hr : roomsAfter cs ev = (update cs.sort cs.rooms (summaryAfter cs ev)).1 := by
      rw [roomsAfter, hl]; simp
    refine ⟨rfl, hr, ?_⟩
    have hu := update_position (c := cs.sort) (L := cs.rooms) (s := summaryAfter cs ev) (p := p)
      (by rw [hid]; exact hold)
    rw [hr, ← hid, hu] at hnew
    exact Option.some.inj hnew

theorem eventOps_eq {cs : ConnState} {ev : EventData} {p q : Nat}
    (hold : position_of cs.rooms ev.roomID = some p)
    (hnew : position_of (roomsAfter cs ev) ev.roomID = some q) :
    eventOps cs ev = moveOps cs.ranges (roomsAfter cs ev) (some p) q ev := by
  obtain ⟨hl, _, hq⟩ := position_after hold hnew
  unfold eventOps
  rw [hl, hold]
  simp only [Bool.false_eq_true, if_false]
  rw [hq]

theorem roomsAfter_length {cs : ConnState} {ev : EventData} {p q : Nat}
    (hn : (cs.rooms.map (fun r => r.RoomID)).Nodup)
    (hold : position_of cs.rooms ev.roomID = some p)
    (hnew : position_of (roomsAfter cs ev) ev.roomID = some q) :
    (roomsAfter cs ev).length = cs.rooms.length := by
  obtain ⟨_, hr, _⟩ := position_after hold hnew
  rw [hr]
  exact update_length hn (by rw [summaryAfter_RoomID hold]; exact hold)

/-- The connection as step 3 sees it in a steady-state request. -/
theorem handle_steady {cs : ConnState} {req : Request} (wakes : List (List EventData))
    (hinv : cs.invalidated = false) (hl : cs.loaded = true)
    (hr : parseRanges req.Rooms = some cs.ranges) :
    HandleIncomingRequest cs req wakes =
      .ok (respond
        (drain { cs with subscriptions := applySubscriptions cs.subscriptions req, queue := [] }
          { Ops := [], RoomSubscriptions := initialEmissions cs req } cs.queue)
        wakes) := by
  have hload : load cs req = cs := by
    unfold load
    rw [hl]
    rfl
  unfold HandleIncomingRequest
  rw [if_neg (by rw [hinv]; decide)]
  simp only [hr, hload, added_since_self _ (parseRanges_valid hr), syncOps, List.filterMap_nil]

theorem respond_nonempty {st : ConnState × Response} (wakes : List (List EventData))
    (h : st.2.isEmpty = false) :
    respond st wakes = ({ st.2 with Count := st.1.rooms.length }, st.1) := by
  unfold respond
  rw [h]
  rfl

theorem respond_deadline (st : ConnState × Response) :
    respond st [] = ({ st.2 with Count := st.1.rooms.length }, st.1) := by
  unfold respond
  split <;> rfl

/-- A request in the steady state (loaded, same ranges as before) with one queued event that
gives ops: the ops are those of the event. -/
theorem handle_one_event {cs : ConnState} {req : Request} {ev : EventData}
    (wakes : List (List EventData))
    (hinv : cs.invalidated = false) (hl : cs.loaded = true)
    (hr : parseRanges req.Rooms = some cs.ranges) (hq : cs.queue = [ev])
    (hne : eventOps cs ev ≠ []) :
    ∃ resp cs', HandleIncomingRequest cs req wakes = .ok (resp, cs') ∧
      resp.Ops = eventOps cs ev ∧ resp.Count = (roomsAfter cs ev).length := by
  rw [handle_steady wakes hinv hl hr, hq]
  have hops : (drain
      { cs with subscriptions := applySubscriptions cs.subscriptions req, queue := [] }
      { Ops := [], RoomSubscriptions := initialEmissions cs req } [ev]).2.Ops =
      eventOps cs ev := rfl
  rw [respond_nonempty]
  · exact ⟨_, _, rfl, hops, rfl⟩
  · unfold Response.isEmpty
    rw [hops]
    cases h : eventOps cs ev with
    | nil => exact absurd h hne
    | cons a l => rfl

end sync3

namespace sync3

theorem contains_of_cover {R : RangeSet} {n p : Nat}
    (hc : ∃ iv ∈ R, iv.1 = 0 ∧ n ≤ iv.2 + 1) (hp : p < n) : contains R p = true := by
  obtain ⟨iv, hiv, h0, hn⟩ := hc
  unfold contains
  rw [List.any_eq_true]
  refine ⟨iv, hiv, ?_⟩
  simp only [Bool.and_eq_true, decide_eq_true_eq]
  omega

theorem moveOps_inside {R : RangeSet} {L : List SortableRoom} {a b : Nat} {ev : EventData}
    {r : SortableRoom} (hab : a ≠ b) (ha : inside R L.length a = true)
    (hb : inside R L.length b = true) (hr : L[b]? = some r) :
    moveOps R L (some a) b ev = [.DELETE a, .INSERT b (fullRoom r)] := by
  unfold moveOps
  have hne : ¬ (some a = some b) := fun h => hab (Option.some.inj h)
  simp only [hne, if_false, Option.getD_some, ha, hb, if_true, deleteInsert, hr]

theorem moveOps_same {R : RangeSet} {L : List SortableRoom} {p : Nat} {ev : EventData}
    (hp : inside R L.length p = true) :
    moveOps R L (some p) p ev = [.UPDATE p (partialRoom ev)] := by
  unfold moveOps
  simp only [if_true, hp]

theorem moveOps_untracked {R : RangeSet} {L : List SortableRoom} {a b : Nat} {ev : EventData}
    (hT : trackedBetween R L.length (min a b) (max a b) = []) :
    moveOps R L (some a) b ev = [] := by
  have h : ∀ q, min a b ≤ q → q ≤ max a b → inside R L.length q = false := by
    intro q h1 h2
    cases hq : inside R L.length q with
    | false => rfl
    | true =>
      have := trackedBetween_mem h1 h2 hq
      rw [hT] at this
      simp at this
  have ha : inside R L.length a = false := h a (min_le_left _ _) (le_max_left _ _)
  have hb : inside R L.length b = false := h b (min_le_right _ _) (le_max_right _ _)
  unfold moveOps
  by_cases hab : some a = some b
  · rw [if_pos hab, hb]
    rfl
  · simp only [hab, if_false, Option.getD_some, ha, hb, hT, Bool.false_eq_true,
      List.getLast?_nil, List.head?_nil, ite_self, deleteInsert]

/-- C7. Bump within the window: a loaded connection whose list holds every room once and
which tracks a range covering every room receives one event for the room at position `pOld`,
and the room is at a different position `pNew` afterwards. The next response to a request for
the same ranges has the ops `DELETE pOld`, then `INSERT pNew` carrying that room (its id is
the event's room id), and `Count` is what it was. -/
theorem C7_bump_within_window (cs : ConnState) (req : Request) (ev : EventData)
    (wakes : List (List EventData)) (pOld pNew : Nat)
    (hinv : cs.invalidated = false) (hl : cs.loaded = true)
    (hn : (cs.rooms.map (fun r => r.RoomID)).Nodup)
    (hr : parseRanges req.Rooms = some cs.ranges)
    (hcover : ∃ iv ∈ cs.ranges, iv.1 = 0 ∧ cs.rooms.length ≤ iv.2 + 1)
    (hq : cs.queue = [ev])
    (hold : position_of cs.rooms ev.roomID = some pOld)
    (hnew : position_of (roomsAfter cs ev) ev.roomID = some pNew)
    (hmove : pOld ≠ pNew) :
    ∃ resp cs' r, HandleIncomingRequest cs req wakes = .ok (resp, cs') ∧
      resp.Ops = [.DELETE pOld, .INSERT pNew (fullRoom r)] ∧
      r.RoomID = ev.roomID ∧ resp.Count = cs.rooms.length := by
  have hlen := roomsAfter_length hn hold hnew
  obtain ⟨r, hr', hid⟩ := position_of_get hnew
  have ha : inside cs.ranges (roomsAfter cs ev).length pOld = true :=
    inside_of_contains (contains_of_cover hcover (position_of_lt hold))
      (by rw [hlen]; exact position_of_lt hold)
  have hb : inside cs.ranges (roomsAfter cs ev).length pNew = true :=
    inside_of_contains (contains_of_cover hcover (by rw [← hlen]; exact position_of_lt hnew))
      (position_of_lt hnew)
  have hops : eventOps cs ev = [.DELETE pOld, .INSERT pNew (fullRoom r)] := by
    rw [eventOps_eq hold hnew, moveOps_inside hmove ha hb hr']
  obtain ⟨resp, cs', hres, ho, hc⟩ :=
    handle_one_event wakes hinv hl hr hq (by rw [hops]; simp)
  exact ⟨resp, cs', r, hres, by rw [ho, hops], hid, by rw [hc, hlen]⟩

/-- C10. Update in place: a loaded connection tracks a range that contains position `p` and
receives one event for the room at position `p`, which is still at `p` afterwards. The next
response to a request for the same ranges has exactly one op, `UPDATE p` carrying the room id
and the new event; no `DELETE`, no `INSERT`. -/
theorem C10_update_in_place (cs : ConnState) (req : Request) (ev : EventData)
    (wakes : List (List EventData)) (p : Nat)
    (hinv : cs.invalidated = false) (hl : cs.loaded = true)
    (hr : parseRanges req.Rooms = some cs.ranges)
    (hin : contains cs.ranges p = true)
    (hq : cs.queue = [ev])
    (hold : position_of cs.rooms ev.roomID = some p)
    (hnew : position_of (roomsAfter cs ev) ev.roomID = some p) :
    ∃ resp cs', HandleIncomingRequest cs req wakes = .ok (resp, cs') ∧
      resp.Ops = [.UPDATE p { RoomID := ev.roomID, Timeline := [ev.event] }] := by
  have hp : inside cs.ranges (roomsAfter cs ev).length p = true :=
    inside_of_contains hin (position_of_lt hnew)
  have hops : eventOps cs ev = [.UPDATE p (partialRoom ev)] := by
    rw [eventOps_eq hold hnew, moveOps_same hp]
  obtain ⟨resp, cs', hres, ho, _⟩ :=
    handle_one_event wakes hinv hl hr hq (by rw [hops]; simp)
  exact ⟨resp, cs', hres, by rw [ho, hops]; rfl⟩

/-- C8 (amended). A loaded connection receives one event for a room that is at position `a`
before the event and at position `b` after it, and no position from the smaller to the
larger of the two is tracked (`trackedBetween` is empty). The next response to a request for
the same ranges, returned when the deadline fires with no further event, is not an error and
has an empty ops list. -/
theorem C8_untracked_move_no_ops (cs : ConnState) (req : Request) (ev : EventData) (a b : Nat)
    (hinv : cs.invalidated = false) (hl : cs.loaded = true)
    (hr : parseRanges req.Rooms = some cs.ranges)
    (hq : cs.queue = [ev])
    (hold : position_of cs.rooms ev.roomID = some a)
    (hnew : position_of (roomsAfter cs ev) ev.roomID = some b)
    (hnone : trackedBetween cs.ranges (roomsAfter cs ev).length (min a b) (max a b) = []) :
    ∃ resp cs', HandleIncomingRequest cs req [] = .ok (resp, cs') ∧ resp.Ops = [] := by
  have hops : eventOps cs ev = [] := by
    rw [eventOps_eq hold hnew, moveOps_untracked hnone]
  rw [handle_steady [] hinv hl hr, hq, respond_deadline]
  refine ⟨_, _, rfl, ?_⟩
  exact hops

end sync3

namespace sync3

/-! ### The initial window -/

theorem ordered_total (c : SortCriterion) (a b : SortableRoom) : ordered c a b ∨ ordered c b a := by
  cases c with
  | by_recency =>
    unfold ordered
    simp only
    rcases lt_trichotomy a.LastMessageTimestamp b.LastMessageTimestamp with h | h | h
    · exact Or.inr (Or.inl h)
    · rcases le_total a.RoomID.toList b.RoomID.toList with h' | h'
      · exact Or.inl (Or.inr ⟨h, h'⟩)
      · exact Or.inr (Or.inr ⟨h.symm, h'⟩)
    · exact Or.inl (Or.inl h)
  | by_name =>
    unfold ordered
    simp only
    rcases lt_trichotomy a.Name.toList b.Name.toList with h | h | h
    · exact Or.inl (Or.inl h)
    · rcases le_total a.RoomID.toList b.RoomID.toList with h' | h'
      · exact Or.inl (Or.inr ⟨h, h'⟩)
      · exact Or.inr (Or.inr ⟨h.symm, h'⟩)
    · exact Or.inr (Or.inl h)

theorem ordered_trans (c : SortCriterion) (x y z : SortableRoom)
    (h1 : ordered c x y) (h2 : ordered c y z) : ordered c x z := by
  cases c with
  | by_recency =>
    unfold ordered at *
    simp only at *
    rcases h1 with h1 | ⟨h1, h1'⟩ <;> rcases h2 with h2 | ⟨h2, h2'⟩
    · exact Or.inl (lt_trans h2 h1)
    · exact Or.inl (by omega)
    · exact Or.inl (by omega)
    · exact Or.inr ⟨by omega, le_trans h1' h2'⟩
  | by_name =>
    unfold ordered at *
    simp only at *
    rcases h1 with h1 | ⟨h1, h1'⟩ <;> rcases h2 with h2 | ⟨h2, h2'⟩
    · exact Or.inl (lt_trans h1 h2)
    · exact Or.inl (by rw [← h2]; exact h1)
    · exact Or.inl (by rw [h1]; exact h2)
    · exact Or.inr ⟨h1.trans h2, le_trans h1' h2'⟩

theorem build_sorted (rooms : List SortableRoom) (c : SortCriterion) :
    (build rooms c).Sorted (ordered c) :=
  @List.sorted_insertionSort _ (ordered c) _ ⟨ordered_total c⟩ ⟨ordered_trans c⟩ rooms

theorem build_perm (rooms : List SortableRoom) (c : SortCriterion) :
    (build rooms c).Perm rooms :=
  List.perm_insertionSort _ rooms

/-- Under `by_recency`, a list of rooms with pairwise distinct timestamps is built in strictly
descending timestamp order. -/
theorem build_recency_strict (rooms : List SortableRoom)
    (hts : (rooms.map (fun r => r.LastMessageTimestamp)).Nodup) :
    (build rooms .by_recency).Sorted
      (fun a b => b.LastMessageTimestamp < a.LastMessageTimestamp) := by
  have hs := build_sorted rooms .by_recency
  have hp := build_perm rooms .by_recency
  have hnd : ((build rooms .by_recency).map (fun r => r.LastMessageTimestamp)).Nodup :=
    (List.Perm.nodup_iff (hp.map _)).mpr hts
  have hne : (build rooms .by_recency).Pairwise
      (fun a b => a.LastMessageTimestamp ≠ b.LastMessageTimestamp) := by
    rw [List.Nodup, List.pairwise_map] at hnd
    exact hnd
  unfold List.Sorted at *
  refine (hs.and hne).imp ?_
  intro a b hab
  rcases hab with ⟨h | ⟨h, _⟩, hne⟩
  · exact h
  · exact absurd h hne

theorem parseRanges_zero_nine : parseRanges [(0, 9)] = some [(0, 9)] := by decide

/-- C6 (amended). Initial window: a fresh connection whose user is joined to at least one
room, the rooms having pairwise distinct last-message timestamps, answers its first request
with sort `by_recency` and rooms `[[0,9]]` without error, with `Count` the number of joined
rooms and exactly one op: a `SYNC` with range `[0,9]` whose rooms are the first ten of the
joined rooms in strictly descending timestamp order, each with its name and its latest event
as the single timeline entry. -/
theorem C6_initial_window (userID : String) (store : Store) (req : Request)
    (wakes : List (List EventData))
    (hsort : req.SortBy = some .by_recency) (hrooms : req.Rooms = [(0, 9)])
    (hts : ((store.Load userID).1.map
      (fun id => (store.LoadRoom id).LastMessageTimestamp)).Nodup)
    (hN : (store.Load userID).1 ≠ []) :
    ∃ (resp : Response) (cs' : ConnState) (L : List SortableRoom),
      HandleIncomingRequest (NewConnState userID store) req wakes = .ok (resp, cs') ∧
      resp.Count = (store.Load userID).1.length ∧
      L.Perm ((store.Load userID).1.map store.LoadRoom) ∧
      L.Sorted (fun a b => b.LastMessageTimestamp < a.LastMessageTimestamp) ∧
      resp.Ops = [.SYNC (0, 9) ((L.take 10).map (fun r =>
        { RoomID := r.RoomID, Name := r.Name, Timeline := [r.LastEventJSON],
          HighlightCount := r.HighlightCount, NotificationCount := r.NotificationCount }))] := by
  have hperm := build_perm ((store.Load userID).1.map store.LoadRoom) .by_recency
  have hlen : (build ((store.Load userID).1.map store.LoadRoom) .by_recency).length =
      (store.Load userID).1.length := by
    rw [hperm.length_eq, List.length_map]
  have hpos : 0 < (build ((store.Load userID).1.map store.LoadRoom) .by_recency).length := by
    rw [hlen]
    exact List.length_pos.mpr hN
  have hstrict := build_recency_strict ((store.Load userID).1.map store.LoadRoom)
    (by rw [List.map_map]; exact hts)
  unfold HandleIncomingRequest
  rw [if_neg (by simp [NewConnState]), hrooms, parseRanges_zero_nine]
  simp only [load, NewConnState, Bool.false_eq_true, if_false, hsort, Option.getD_some,
    added_since, List.flatMap_cons, List.flatMap_nil, List.foldl_nil, List.append_nil,
    drain, syncOps, List.filterMap_cons, hpos, if_true, List.filterMap_nil]
  rw [respond_nonempty _ (by simp [Response.isEmpty])]
  exact ⟨_, _, build ((store.Load userID).1.map store.LoadRoom) .by_recency, rfl, hlen, hperm,
    hstrict, by simp; rfl⟩

end sync3

namespace sync3

/-! ### Room subscriptions -/

theorem assocGet_assocSet_self {β : Type} (m : List (String × β)) (k : String) (v : β) :
    assocGet (assocSet m k v) k = some v := by
  induction m with
  | nil => simp [assocSet, assocGet]
  | cons x xs ih =>
    by_cases hx : x.1 = k
    · simp [assocSet, assocGet, hx]
    · simp [assocSet, assocGet, hx, ih]

theorem assocGet_assocSet_other {β : Type} (m : List (String × β)) (k k' : String) (v : β)
    (hk : k' ≠ k) : assocGet (assocSet m k v) k' = assocGet m k' := by
  have hkk : ¬ k = k' := fun h => hk h.symm
  induction m with
  | nil => simp [assocSet, assocGet, hkk]
  | cons x xs ih =>
    by_cases hx : x.1 = k
    · have hx' : ¬ x.1 = k' := fun h => hk (h.symm.trans hx)
      simp [assocSet, assocGet, hx, hx', hkk]
    · by_cases hx' : x.1 = k'
      · simp [assocSet, assocGet, hx, hx', hk]
      · simp [assocSet, assocGet, hx, hx', ih]

theorem assocGet_assocErase_other {β : Type} (m : List (String × β)) (k k' : String)
    (hk : k' ≠ k) : assocGet (assocErase m k) k' = assocGet m k' := by
  unfold assocErase
  induction m with
  | nil => rfl
  | cons x xs ih =>
    have hkk : ¬ k = k' := fun h => hk h.symm
    by_cases hx : x.1 = k
    · have hx' : ¬ x.1 = k' := fun h => hk (h.symm.trans hx)
      simp only [ne_eq, decide_not] at ih
      simp [assocGet, List.filter_cons, hx, hx', ih, hkk]
    · by_cases hx' : x.1 = k'
      · simp [assocGet, List.filter_cons, hx, hx', hk]
      · simp only [ne_eq, decide_not] at ih
        simp [assocGet, List.filter_cons, hx, hx', ih]

theorem foldl_assocErase_other {β : Type} (ks : List String) (k' : String)
    (h : k' ∉ ks) : ∀ m : List (String × β),
      assocGet (ks.foldl assocErase m) k' = assocGet m k' := by
  induction ks with
  | nil => intro m; rfl
  | cons k rest ih =>
    intro m
    rw [List.foldl_cons, ih (fun hm => h (List.mem_cons_of_mem _ hm)),
      assocGet_assocErase_other m k k' (fun he => h (by rw [he]; exact List.mem_cons_self _ _))]

theorem foldl_assocSet_other {α β : Type} (f : String → α → β) (kvs : List (String × α))
    (k' : String) (h : ∀ kv ∈ kvs, kv.1 ≠ k') : ∀ m : List (String × β),
      assocGet (kvs.foldl (fun m kv => assocSet m kv.1 (f kv.1 kv.2)) m) k' = assocGet m k' := by
  induction kvs with
  | nil => intro m; rfl
  | cons kv rest ih =>
    intro m
    rw [List.foldl_cons, ih (fun x hx => h x (List.mem_cons_of_mem _ hx)),
      assocGet_assocSet_other m kv.1 k' _ (fun he => h kv (List.mem_cons_self _ _) he.symm)]

theorem foldl_assocSet_mem {α β : Type} (f : String → α → β) (kvs : List (String × α))
    (k : String) (a : α) (hmem : (k, a) ∈ kvs) (hnd : (kvs.map (fun kv => kv.1)).Nodup) :
    ∀ m : List (String × β),
      assocGet (kvs.foldl (fun m kv => assocSet m kv.1 (f kv.1 kv.2)) m) k = some (f k a) := by
  induction kvs with
  | nil => simp at hmem
  | cons kv rest ih =>
    intro m
    rw [List.map_cons, List.nodup_cons] at hnd
    rw [List.foldl_cons]
    rcases List.mem_cons.mp hmem with rfl | hm
    · rw [foldl_assocSet_other f rest _ ?_, assocGet_assocSet_self]
      intro x hx he
      exact hnd.1 (List.mem_map.mpr ⟨x, hx, he⟩)
    · exact ih hm hnd.2 _

theorem assocGet_ne_nil {β : Type} {m : List (String × β)} {k : String} {v : β}
    (h : assocGet m k = some v) : m.isEmpty = false := by
  cases m with
  | nil => simp [assocGet] at h
  | cons x xs => rfl

theorem lastN_singleton {n : Nat} (hn : 1 ≤ n) (x : String) : lastN n [x] = [x] := by
  unfold lastN
  have : [x].length - n = 0 := by simp; omega
  rw [this]
  rfl

/-- A request of a loaded connection that is not invalidated and whose ranges parse. -/
theorem handle_loaded {cs : ConnState} {req : Request} {R : RangeSet}
    (wakes : List (List EventData))
    (hinv : cs.invalidated = false) (hl : cs.loaded = true)
    (hr : parseRanges req.Rooms = some R) :
    HandleIncomingRequest cs req wakes =
      .ok (respond
        (drain
          { cs with
            subscriptions := applySubscriptions cs.subscriptions req, ranges := R, queue := [] }
          { Ops := syncOps cs.rooms (added_since R cs.ranges)
            RoomSubscriptions := initialEmissions cs req } cs.queue)
        wakes) := by
  have hload : load cs req = cs := by
    unfold load
    rw [hl]
    rfl
  unfold HandleIncomingRequest
  rw [if_neg (by rw [hinv]; decide)]
  simp only [hr, hload]

theorem subscriptionUpdate_other (S : List (String × RoomSubscription))
    (subs : List (String × Room)) (ev : EventData) (r : String) (h : ev.roomID ≠ r) :
    assocGet (subscriptionUpdate S subs ev) r = assocGet subs r := by
  unfold subscriptionUpdate
  cases assocGet S ev.roomID with
  | none => rfl
  | some sub => exact assocGet_assocSet_other subs ev.roomID r _ (fun he => h he.symm)

/-- Events for other rooms leave the subscription map and the entry of room `r` in the
response as they are. -/
theorem drain_other (r : String) (events : List EventData) (h : ∀ e ∈ events, e.roomID ≠ r) :
    ∀ (cs : ConnState) (resp : Response),
      (drain cs resp events).1.subscriptions = cs.subscriptions ∧
      assocGet (drain cs resp events).2.RoomSubscriptions r =
        assocGet resp.RoomSubscriptions r := by
  induction events with
  | nil => intro cs resp; exact ⟨rfl, rfl⟩
  | cons e rest ih =>
    intro cs resp
    have h1 := ih (fun x hx => h x (List.mem_cons_of_mem _ hx)) (processEvent (cs, resp) e).1
      (processEvent (cs, resp) e).2
    have he : e.roomID ≠ r := h e (List.mem_cons_self _ _)
    unfold drain at h1 ⊢
    rw [List.foldl_cons]
    refine ⟨h1.1, ?_⟩
    rw [h1.2]
    exact subscriptionUpdate_other cs.subscriptions resp.RoomSubscriptions e r he

theorem drain_append (cs : ConnState) (resp : Response) (l1 l2 : List EventData) :
    drain cs resp (l1 ++ l2) = drain (drain cs resp l1).1 (drain cs resp l1).2 l2 := by
  unfold drain
  rw [List.foldl_append]

/-- One event for a subscribed room, among events for other rooms: the entry of the room in
the response is that event. -/
theorem drain_subscribed (ev : EventData) (before after : List EventData)
    (sub : RoomSubscription) (hlim : 1 ≤ sub.TimelineLimit)
    (hothers : ∀ e ∈ before ++ after, e.roomID ≠ ev.roomID)
    (cs : ConnState) (resp : Response)
    (hS : assocGet cs.subscriptions ev.roomID = some sub)
    (hI : assocGet resp.RoomSubscriptions ev.roomID = none) :
    assocGet (drain cs resp (before ++ ev :: after)).2.RoomSubscriptions ev.roomID =
      some { RoomID := ev.roomID, Name := "", Timeline := [ev.event] } := by
  have hb := drain_other ev.roomID before
    (fun e he => hothers e (List.mem_append_left _ he)) cs resp
  have hstep : assocGet
      (processEvent ((drain cs resp before).1, (drain cs resp before).2) ev).2.RoomSubscriptions
      ev.roomID = some { RoomID := ev.roomID, Name := "", Timeline := [ev.event] } := by
    simp only [processEvent, subscriptionUpdate, hb.1, hS, hb.2, hI, Option.getD_none,
      List.nil_append, lastN_singleton hlim]
    rw [assocGet_assocSet_self]
  have ha := drain_other ev.roomID after
    (fun e he => hothers e (List.mem_append_right _ he))
    (processEvent ((drain cs resp before).1, (drain cs resp before).2) ev).1
    (processEvent ((drain cs resp before).1, (drain cs resp before).2) ev).2
  rw [drain_append, ← hstep, ← ha.2]
  rfl

/-- C9 (amended). First part: a loaded connection holds a subscription to room `r` with a
timeline limit of at least one, its queue holds one event for `r` (among events for other
rooms), and the next request neither unsubscribes nor re-subscribes `r`; whatever ranges that
request tracks, its response has an entry for `r` in `RoomSubscriptions` whose timeline is
exactly that event, with no name. Second part: a request that subscribes to `r`, with no event
for `r` queued, returns an entry for `r` with the name of `r` and a timeline that ends with
the latest event of `r`. -/
theorem C9_room_subscriptions :
    (∀ (cs : ConnState) (req : Request) (ev : EventData) (before after : List EventData)
        (wakes : List (List EventData)) (R : RangeSet) (sub : RoomSubscription),
        cs.invalidated = false → cs.loaded = true → parseRanges req.Rooms = some R →
        assocGet cs.subscriptions ev.roomID = some sub → 1 ≤ sub.TimelineLimit →
        ev.roomID ∉ req.UnsubscribeRooms → (∀ kv ∈ req.RoomSubscriptions, kv.1 ≠ ev.roomID) →
        cs.queue = before ++ ev :: after →
        (∀ e ∈ before ++ after, e.roomID ≠ ev.roomID) →
        ∃ (resp : Response) (cs' : ConnState),
          HandleIncomingRequest cs req wakes = .ok (resp, cs') ∧
          assocGet resp.RoomSubscriptions ev.roomID =
            some { RoomID := ev.roomID, Name := "", Timeline := [ev.event] }) ∧
    (∀ (cs : ConnState) (req : Request) (wakes : List (List EventData)) (R : RangeSet)
        (r : String) (sub : RoomSubscription),
        cs.invalidated = false → parseRanges req.Rooms = some R →
        (r, sub) ∈ req.RoomSubscriptions →
        (req.RoomSubscriptions.map (fun kv => kv.1)).Nodup →
        (∀ e ∈ cs.queue, e.roomID ≠ r) →
        ∃ (resp : Response) (cs' : ConnState) (room : Room),
          HandleIncomingRequest cs req wakes = .ok (resp, cs') ∧
          assocGet resp.RoomSubscriptions r = some room ∧
          room.RoomID = r ∧ room.Name = (cs.store.LoadRoom r).Name ∧
          room.Timeline.getLast? = some (cs.store.LoadRoom r).LastEventJSON) := by
  constructor
  · intro cs req ev before after wakes R sub hinv hl hr hsub hlim hun hre hq hothers
    have hS : assocGet (applySubscriptions cs.subscriptions req) ev.roomID = some sub := by
      unfold applySubscriptions
      rw [foldl_assocSet_other (fun _ s => s) req.RoomSubscriptions ev.roomID hre,
        foldl_assocErase_other req.UnsubscribeRooms ev.roomID hun, hsub]
    have hI : assocGet (initialEmissions cs req) ev.roomID = none := by
      unfold initialEmissions
      rw [foldl_assocSet_other (fun k s => initialRoomData cs k s) req.RoomSubscriptions
        ev.roomID hre]
      rfl
    rw [handle_loaded wakes hinv hl hr, hq]
    have hfinal := drain_subscribed ev before after sub hlim hothers
      { cs with
        subscriptions := applySubscriptions cs.subscriptions req, ranges := R, queue := [] }
      { Ops := syncOps cs.rooms (added_since R cs.ranges)
        RoomSubscriptions := initialEmissions cs req } hS hI
    rw [respond_nonempty]
    · exact ⟨_, _, rfl, hfinal⟩
    · have := assocGet_ne_nil hfinal
      simp only [Response.isEmpty, this, Bool.and_false]
  · intro cs req wakes R r sub hinv hr hmem hnd hq
    have hentry : assocGet (initialEmissions (load cs req) req) r =
        some (initialRoomData (load cs req) r sub) := by
      unfold initialEmissions
      exact foldl_assocSet_mem (fun k s => initialRoomData (load cs req) k s)
        req.RoomSubscriptions r sub hmem hnd []
    have hstore : (load cs req).store = cs.store := by
      unfold load
      split <;> rfl
    have hqueue : (load cs req).queue = cs.queue := by
      unfold load
      split <;> rfl
    unfold HandleIncomingRequest
    rw [if_neg (by rw [hinv]; decide)]
    simp only [hr, hqueue]
    have hd := (drain_other r cs.queue hq
      { load cs req with
        subscriptions := applySubscriptions (load cs req).subscriptions req, ranges := R,
        queue := [] }
      { Ops := syncOps (load cs req).rooms (added_since R (load cs req).ranges)
        RoomSubscriptions := initialEmissions (load cs req) req }).2
    rw [hentry] at hd
    rw [respond_nonempty]
    · refine ⟨_, _, _, rfl, hd, rfl, ?_, ?_⟩
      · simp only [initialRoomData, hstore]
      · simp [initialRoomData, hstore, List.getLast?_append]
    · have := assocGet_ne_nil hd
      simp only [Response.isEmpty, this, Bool.and_false]

end sync3

namespace sync3

/-! ### The tests of `connstate_test.go`, replayed -/

/-- Test `TestConnStateInitial`, first response: `Count` 3 and one `SYNC [0,9]` with B, C, A. -/
theorem TestConnStateInitial_sync :
    responseOf (HandleIncomingRequest initialState firstTen []) =
      some { Count := 3
             Ops := [.SYNC (0, 9)
               [fullRoom (newSortableRoom "!b:localhost" timestampNow),
                fullRoom (newSortableRoom "!c:localhost" (timestampNow - 4000)),
                fullRoom (newSortableRoom "!a:localhost" (timestampNow - 8000))]]
             RoomSubscriptions := [] } := by
  decide

/-- Test `TestConnStateInitial`, second response: `DELETE 2`, `INSERT 0` with room A. -/
theorem TestConnStateInitial_bump :
    (responseOf (HandleIncomingRequest bumpedState firstTen [])).map (fun r => (r.Count, r.Ops)) =
      some (3, [.DELETE 2, .INSERT 0
        { RoomID := "!a:localhost", Name := "Room !a:localhost", Timeline := ["\x7b\x7d"] }]) := by
  decide

/-- Test `TestConnStateInitial`, third response: `UPDATE 0` with room A. -/
theorem TestConnStateInitial_update :
    (responseOf (HandleIncomingRequest updatedState firstTen [])).map (fun r => (r.Count, r.Ops)) =
      some (3, [.UPDATE 0 { RoomID := "!a:localhost", Timeline := ["\x7b\x7d"] }]) := by
  decide

/-- Test `TestConnStateMultipleRanges`: the first page is `SYNC [0,2]` with rooms 0, 1, 2; adding
the range `[4,6]` gives `SYNC [4,6]` with rooms 4, 5, 6; pulling room 8 to the top gives
`DELETE 6`, `INSERT 0` with room 8; pulling room 9 to position 3 gives `DELETE 6`, `INSERT 4`
with room 2. `Count` is 10 throughout. -/
theorem TestConnStateMultipleRanges_responses :
    (responseOf (HandleIncomingRequest multipleRangesFresh firstPage [])).map
        (fun r => (r.Count, r.Ops)) =
      some (10, [.SYNC (0, 2) ((tenRooms.take 3).map fullRoom)]) ∧
    (responseOf (HandleIncomingRequest multipleRangesPaged twoRanges [])).map
        (fun r => (r.Count, r.Ops)) =
      some (10, [.SYNC (4, 6) (((tenRooms.drop 4).take 3).map fullRoom)]) ∧
    (responseOf (HandleIncomingRequest multipleRangesBumped twoRanges [])).map
        (fun r => (r.Count, r.Ops)) =
      some (10, [.DELETE 6, .INSERT 0
        { RoomID := "!8:localhost", Name := "Room 8", Timeline := ["\x7b\x7d"] }]) ∧
    (responseOf (HandleIncomingRequest (mockPushNewEvent multipleRangesState room9Event)
        twoRanges [])).map (fun r => (r.Count, r.Ops)) =
      some (10, [.DELETE 6, .INSERT 4
        { RoomID := "!2:localhost", Name := "Room 2", Timeline := ["\x7b\x7d"] }]) := by
  decide

/-- Test `TestBumpToOutsideRange`: D moves from position 3 to position 2, the response has no
ops. -/
theorem TestBumpToOutsideRange_no_ops :
    (responseOf (HandleIncomingRequest outsideBumpState firstTwo [])).map (fun r => r.Ops) =
      some [] := by
  decide

/-- Test `TestConnStateRoomSubscriptions`: the subscribing request returns the full room D, the next
one the new event of D. -/
theorem TestConnStateRoomSubscriptions_entries :
    (responseOf (HandleIncomingRequest fourRoomState (subscribeD 20) [])).map
        (fun r => r.RoomSubscriptions) =
      some [("!d:localhost", fullRoom (newSortableRoom "!d:localhost" (timestampNow - 3000)))] ∧
    (responseOf (HandleIncomingRequest (subscribedState 20) firstTwo [])).map
        (fun r => r.RoomSubscriptions) =
      some [("!d:localhost", { RoomID := "!d:localhost", Timeline := ["\x7b\x7d"] })] := by
  decide

/-! ### Counterexamples and witnesses -/

/-- C6, as stated, fails for a user with no joined room: the range `[0,9]` is empty once
clamped, no `SYNC` is emitted, and the response returned at the deadline has no op. -/
theorem C6_counterexample_no_rooms :
    (connStateStoreMock [] []).Load "@alice:localhost" = ([], 1) ∧
      responseOf (HandleIncomingRequest
        (NewConnState "@alice:localhost" (connStateStoreMock [] [])) firstTen []) =
        some { Count := 0, Ops := [], RoomSubscriptions := [] } := by
  decide

/-- Witness for C6: the three rooms of `TestConnStateInitial`. -/
theorem C6_initial_window_witness :
    firstTen.SortBy = some .by_recency ∧ firstTen.Rooms = [(0, 9)] ∧
    ((threeRoomStore.Load "@alice:localhost").1.map
      (fun id => (threeRoomStore.LoadRoom id).LastMessageTimestamp)).Nodup ∧
    (threeRoomStore.Load "@alice:localhost").1 ≠ [] ∧
    ∃ (resp : Response) (cs' : ConnState) (L : List SortableRoom),
      HandleIncomingRequest (NewConnState "@alice:localhost" threeRoomStore) firstTen [] =
        .ok (resp, cs') ∧
      resp.Count = (threeRoomStore.Load "@alice:localhost").1.length ∧
      L.Perm ((threeRoomStore.Load "@alice:localhost").1.map threeRoomStore.LoadRoom) ∧
      L.Sorted (fun a b => b.LastMessageTimestamp < a.LastMessageTimestamp) ∧
      resp.Ops = [.SYNC (0, 9) ((L.take 10).map (fun r =>
        { RoomID := r.RoomID, Name := r.Name, Timeline := [r.LastEventJSON],
          HighlightCount := r.HighlightCount, NotificationCount := r.NotificationCount }))] :=
  ⟨rfl, rfl, by decide, by decide,
    C6_initial_window "@alice:localhost" threeRoomStore firstTen [] rfl rfl
      (by decide) (by decide)⟩

/-- Witness for C7: `TestConnStateInitial`, room A bumped from position 2 to position 0. -/
theorem C7_bump_within_window_witness :
    bumpedState.invalidated = false ∧ bumpedState.loaded = true ∧
    (bumpedState.rooms.map (fun r => r.RoomID)).Nodup ∧
    parseRanges firstTen.Rooms = some bumpedState.ranges ∧
    (∃ iv ∈ bumpedState.ranges, iv.1 = 0 ∧ bumpedState.rooms.length ≤ iv.2 + 1) ∧
    bumpedState.queue = [bumpA (timestampNow + 1000)] ∧
    position_of bumpedState.rooms (bumpA (timestampNow + 1000)).roomID = some 2 ∧
    position_of (roomsAfter bumpedState (bumpA (timestampNow + 1000)))
      (bumpA (timestampNow + 1000)).roomID = some 0 ∧
    ∃ resp cs' r, HandleIncomingRequest bumpedState firstTen [] = .ok (resp, cs') ∧
      resp.Ops = [.DELETE 2, .INSERT 0 (fullRoom r)] ∧
      r.RoomID = (bumpA (timestampNow + 1000)).roomID ∧ resp.Count = bumpedState.rooms.length :=
  ⟨by decide, by decide, by decide, by decide, by decide, by decide, by decide, by decide,
    C7_bump_within_window bumpedState firstTen (bumpA (timestampNow + 1000)) [] 2 0
      (by decide) (by decide) (by decide) (by decide) (by decide) (by decide) (by decide)
      (by decide) (by decide)⟩

/-- C8, as stated, fails in `TestConnStateMultipleRanges`: with ranges `[0,2]` and `[4,6]`
tracked and no subscription, room 9 goes from position 9 to position 3, both untracked, and
the response has the ops `DELETE 6`, `INSERT 4` with room 2. -/
theorem C8_counterexample_crossing_move :
    position_of multipleRangesState.rooms room9Event.roomID = some 9 ∧
    position_of (roomsAfter multipleRangesState room9Event) room9Event.roomID = some 3 ∧
    inside multipleRangesState.ranges 10 9 = false ∧
    inside multipleRangesState.ranges 10 3 = false ∧
    multipleRangesState.subscriptions = [] ∧
    (responseOf (HandleIncomingRequest (mockPushNewEvent multipleRangesState room9Event)
        twoRanges [])).map (fun r => r.Ops) =
      some [.DELETE 6, .INSERT 4
        { RoomID := "!2:localhost", Name := "Room 2", Timeline := ["\x7b\x7d"] }] := by
  decide

/-- Witness for C8: `TestBumpToOutsideRange`, room D going from position 3 to position 2
with `[0,1]` tracked. -/
theorem C8_untracked_move_no_ops_witness :
    outsideBumpState.invalidated = false ∧ outsideBumpState.loaded = true ∧
    parseRanges firstTwo.Rooms = some outsideBumpState.ranges ∧
    outsideBumpState.queue = [eventD (timestampNow - 2000 + 2)] ∧
    position_of outsideBumpState.rooms (eventD (timestampNow - 2000 + 2)).roomID = some 3 ∧
    position_of (roomsAfter outsideBumpState (eventD (timestampNow - 2000 + 2)))
      (eventD (timestampNow - 2000 + 2)).roomID = some 2 ∧
    ∃ resp cs', HandleIncomingRequest outsideBumpState firstTwo [] = .ok (resp, cs') ∧
      resp.Ops = [] :=
  ⟨by decide, by decide, by decide, by decide, by decide, by decide,
    C8_untracked_move_no_ops outsideBumpState firstTwo (eventD (timestampNow - 2000 + 2)) 3 2
      (by decide) (by decide) (by decide) (by decide) (by decide) (by decide) (by decide)⟩

/-- C9, as stated, fails for a subscription with timeline limit 0: the entry for the room is
there, but its timeline, truncated to the zero most recent events, is empty. -/
theorem C9_counterexample_limit_zero :
    assocGet (subscribedState 0).subscriptions "!d:localhost" = some { TimelineLimit := 0 } ∧
    (subscribedState 0).queue = [eventD (timestampNow + 2000)] ∧
    (responseOf (HandleIncomingRequest (subscribedState 0) firstTwo [])).map
        (fun r => assocGet r.RoomSubscriptions "!d:localhost") =
      some (some { RoomID := "!d:localhost", Timeline := [] }) := by
  decide

/-- A request that unsubscribes from D while an event for D is queued: step 1 removes the
subscription before the queue is drained, and the response has no entry for D. -/
theorem unsubscribe_before_drain :
    (responseOf (HandleIncomingRequest (subscribedState 20)
        { SortBy := some .by_recency, Rooms := [(0, 1)], UnsubscribeRooms := ["!d:localhost"] }
        [])).map (fun r => r.RoomSubscriptions) = some [] := by
  decide

/-- Witness for C9: `TestConnStateRoomSubscriptions`, the event for the subscribed room D and
the request that subscribes to D. -/
theorem C9_room_subscriptions_witness :
    ((subscribedState 20).invalidated = false ∧ (subscribedState 20).loaded = true ∧
      assocGet (subscribedState 20).subscriptions (eventD (timestampNow + 2000)).roomID =
        some { TimelineLimit := 20 } ∧
      (subscribedState 20).queue = [eventD (timestampNow + 2000)] ∧
      ∃ (resp : Response) (cs' : ConnState),
        HandleIncomingRequest (subscribedState 20) firstTwo [] = .ok (resp, cs') ∧
        assocGet resp.RoomSubscriptions (eventD (timestampNow + 2000)).roomID =
          some { RoomID := (eventD (timestampNow + 2000)).roomID, Name := "",
                 Timeline := [(eventD (timestampNow + 2000)).event] }) ∧
    (("!d:localhost", { TimelineLimit := 20 }) ∈ (subscribeD 20).RoomSubscriptions ∧
      ∃ (resp : Response) (cs' : ConnState) (room : Room),
        HandleIncomingRequest fourRoomState (subscribeD 20) [] = .ok (resp, cs') ∧
        assocGet resp.RoomSubscriptions "!d:localhost" = some room ∧
        room.RoomID = "!d:localhost" ∧
        room.Name = (fourRoomState.store.LoadRoom "!d:localhost").Name ∧
        room.Timeline.getLast? =
          some (fourRoomState.store.LoadRoom "!d:localhost").LastEventJSON) :=
  ⟨⟨by decide, by decide, by decide, by decide,
      C9_room_subscriptions.1 (subscribedState 20) firstTwo (eventD (timestampNow + 2000)) [] []
        [] [(0, 1)] { TimelineLimit := 20 } (by decide) (by decide) (by decide) (by decide)
        (by decide) (by decide) (by decide) (by decide) (by decide)⟩,
    ⟨by decide,
      C9_room_subscriptions.2 fourRoomState (subscribeD 20) [] [(0, 1)] "!d:localhost"
        { TimelineLimit := 20 } (by decide) (by decide) (by decide) (by decide) (by decide)⟩⟩

/-- Witness for C10: `TestConnStateInitial`, a second event for room A, which stays at
position 0. -/
theorem C10_update_in_place_witness :
    updatedState.invalidated = false ∧ updatedState.loaded = true ∧
    parseRanges firstTen.Rooms = some updatedState.ranges ∧
    contains updatedState.ranges 0 = true ∧
    updatedState.queue = [bumpA (timestampNow + 2000)] ∧
    position_of updatedState.rooms (bumpA (timestampNow + 2000)).roomID = some 0 ∧
    position_of (roomsAfter updatedState (bumpA (timestampNow + 2000)))
      (bumpA (timestampNow + 2000)).roomID = some 0 ∧
    ∃ resp cs', HandleIncomingRequest updatedState firstTen [] = .ok (resp, cs') ∧
      resp.Ops = [.UPDATE 0 { RoomID := (bumpA (timestampNow + 2000)).roomID,
                              Timeline := [(bumpA (timestampNow + 2000)).event] }] :=
  ⟨by decide, by decide, by decide, by decide, by decide, by decide, by decide,
    C10_update_in_place updatedState firstTen (bumpA (timestampNow + 2000)) [] 0
      (by decide) (by decide) (by decide) (by decide) (by decide) (by decide) (by decide)⟩

end sync3

/-! ## Theorems: the writers of the tracker, continued -/

namespace synclive

theorem indexAt_lt (s : List String) (i : Nat) (h : i < s.length) :
    indexAt s (i : Int) = some s[i] := by
  unfold indexAt
  have h1 : 0 ≤ (i : Int) ∧ (i : Int) < (s.length : Int) := ⟨by omega, by omega⟩
  rw [if_pos h1]
  simp [List.getElem?_eq_getElem h]

theorem indexAt_last (s : List String) (h : s.length - 1 < s.length) :
    indexAt s ((s.length : Int) - 1) = some s[s.length - 1] := by
  have e : ((s.length : Int) - 1) = ((s.length - 1 : Nat) : Int) := by omega
  rw [e]
  exact indexAt_lt s (s.length - 1) h

/-- The bounds-checked loop finishes whenever the bound covers the part of the slice still to
scan, with the slice `removeLoop` computes, after at most that many iterations, and with every
access in bounds. -/
theorem removeLoopChecked_finished (id : String) (fuel : Nat) :
    ∀ (i : Nat) (s : List String), s.length - i ≤ fuel →
      ∃ n acc, removeLoopChecked id fuel i s = .finished (removeLoop id fuel i s) n acc ∧
        n ≤ s.length - i ∧ acc.all inBounds = true := by
  induction fuel with
  | zero =>
    intro i s h
    have hi : ¬ i < s.length := by omega
    exact ⟨0, [], by simp [removeLoopChecked, removeLoop, hi], Nat.zero_le _, rfl⟩
  | succ n ih =>
    intro i s h
    rw [removeLoopChecked, removeLoop]
    by_cases hi : i < s.length
    · rw [if_pos hi, dif_pos hi, indexAt_lt s i hi]
      simp only
      by_cases hid : id = s[i]
      · have hl : s.length - 1 < s.length := by omega
        have hw : 0 ≤ (i : Int) ∧ (i : Int) < (s.length : Int) := ⟨by omega, by omega⟩
        have hk : 0 ≤ (s.length : Int) - 1 ∧ (s.length : Int) - 1 ≤ (s.length : Int) :=
          ⟨by omega, by omega⟩
        have hkn : ((s.length : Int) - 1).toNat = s.length - 1 := by omega
        rw [if_pos hid, if_pos hid, indexAt_last s hl]
        simp only [if_pos hw, if_pos hk, hkn]
        obtain ⟨m, acc, hrun, hm, hacc⟩ :=
          ih (i + 1) ((s.set i s[s.length - 1]).take (s.length - 1))
            (by simp only [List.length_take, List.length_set]; omega)
        rw [hrun]
        refine ⟨m + 1, _, rfl, ?_, ?_⟩
        · simp only [List.length_take, List.length_set] at hm
          omega
        · rw [List.all_append, hacc, Bool.and_true]
          simp only [List.all_cons, List.all_nil, Bool.and_true, inBounds, Bool.and_eq_true,
            decide_eq_true_eq]
          omega
      · rw [if_neg hid, if_neg hid]
        obtain ⟨m, acc, hrun, hm, hacc⟩ := ih (i + 1) s (by omega)
        rw [hrun]
        refine ⟨m + 1, _, rfl, by omega, ?_⟩
        rw [List.all_append, hacc, Bool.and_true]
        simp only [List.all_cons, List.all_nil, Bool.and_true, inBounds, Bool.and_eq_true,
          decide_eq_true_eq]
        omega
    · rw [if_neg hi, dif_neg hi]
      exact ⟨0, [], rfl, Nat.zero_le _, rfl⟩

/-- C15. The swap-remove loops of `UserLeftRoom` never index out of bounds: for every slice
(empty, or with repeated entries) and every id, the loop with each read `s[i]`, each read
`s[len-1]`, each write `s[i]` and each `s[:len-1]` checked finishes, after at most as many
iterations as the slice is long at the start, with the slice the unchecked loop computes, and
every access it made has `0 <= index < len` and `len >= 1` for the length at that moment; so
the checked `UserLeftRoom` returns, and returns what `UserLeftRoom` does. -/
theorem C15_swap_remove_in_bounds (id : String) (s : List String) (t : JoinedRoomsTracker)
    (userID roomID : String) :
    (∃ n acc, removeLoopChecked id s.length 0 s = .finished (removeLoop id s.length 0 s) n acc ∧
        n ≤ s.length ∧ acc.all inBounds = true) ∧
      UserLeftRoomChecked t userID roomID = some (UserLeftRoom t userID roomID) := by
  constructor
  · obtain ⟨n, acc, h1, h2, h3⟩ := removeLoopChecked_finished id s.length 0 s (by omega)
    exact ⟨n, acc, h1, by omega, h3⟩
  · obtain ⟨n1, a1, h1, _, _⟩ := removeLoopChecked_finished roomID
      (t.userIDToJoinedRooms userID).length 0 (t.userIDToJoinedRooms userID) (by omega)
    obtain ⟨n2, a2, h2, _, _⟩ := removeLoopChecked_finished userID
      (t.roomIDToJoinedUsers roomID).length 0 (t.roomIDToJoinedUsers roomID) (by omega)
    unfold UserLeftRoomChecked
    simp only [h1, h2, LoopOutcome.slice]
    rfl

/-- One swap-remove step keeps the number of occurrences of every other element. -/
theorem count_swap_remove (x : String) (s : List String) (i : Nat) (hi : i < s.length)
    (hl : s.length - 1 < s.length) (hx : s[i] ≠ x) :
    ((s.set i s[s.length - 1]).take (s.length - 1)).count x = s.count x := by
  have hlen : (s.set i s[s.length - 1]).length = s.length := List.length_set _ _ _
  have hl' : s.length - 1 < (s.set i s[s.length - 1]).length := by rw [hlen]; exact hl
  have hlast : (s.set i s[s.length - 1])[s.length - 1] = s[s.length - 1] := by
    rw [List.getElem_set]
    split <;> rfl
  have hsplit := List.take_append_drop (s.length - 1) (s.set i s[s.length - 1])
  have hdrop : (s.set i s[s.length - 1]).drop (s.length - 1) = [s[s.length - 1]] := by
    rw [List.drop_eq_getElem_cons hl', hlast, List.drop_of_length_le (by rw [hlen]; omega)]
  rw [hdrop] at hsplit
  have hc := congrArg (List.count x) hsplit
  rw [List.count_append, List.count_set _ _ _ _ hi] at hc
  have hne : (s[i] == x) = false := by simpa using hx
  rw [hne] at hc
  simp only [Bool.false_eq_true, if_false, Nat.sub_zero, List.count_singleton] at hc
  omega

/-- The loop keeps the number of occurrences of every element other than the id. -/
theorem removeLoop_count (id x : String) (hx : x ≠ id) (fuel : Nat) :
    ∀ (i : Nat) (s : List String), (removeLoop id fuel i s).count x = s.count x := by
  induction fuel with
  | zero => intro i s; rfl
  | succ n ih =>
    intro i s
    rw [removeLoop]
    by_cases hi : i < s.length
    · rw [dif_pos hi]
      by_cases hid : id = s[i]
      · have hl : s.length - 1 < s.length := by omega
        rw [if_pos hid]
        show (removeLoop id n (i + 1) ((s.set i s[s.length - 1]).take (s.length - 1))).count x =
          s.count x
        rw [ih]
        exact count_swap_remove x s i hi hl (fun he => hx (by rw [hid, he]))
      · rw [if_neg hid]
        exact ih (i + 1) s
    · rw [dif_neg hi]

/-- C12. `UserLeftRoom(u, r)` removes nothing but the named pair: every room `x` other than `r`
occurs in `JoinedRoomsForUser(u)` as often after the call as before, every user `v` other than
`u` occurs in `JoinedUsersForRoom(r)` as often after the call as before, and when `r` does not
occur in `JoinedRoomsForUser(u)` that list is returned as it was, element for element. -/
theorem C12_left_room_keeps_others (t : JoinedRoomsTracker) (u r x v : String)
    (hx : x ≠ r) (hv : v ≠ u) :
    (JoinedRoomsForUser (UserLeftRoom t u r) u).count x = (JoinedRoomsForUser t u).count x ∧
      (JoinedUsersForRoom (UserLeftRoom t u r) r).count v = (JoinedUsersForRoom t r).count v ∧
      (r ∉ JoinedRoomsForUser t u →
        JoinedRoomsForUser (UserLeftRoom t u r) u = JoinedRoomsForUser t u) := by
  simp only [JoinedRoomsForUser, JoinedUsersForRoom, UserLeftRoom, mapStore_same]
  exact ⟨removeLoop_count r x hx _ 0 _, removeLoop_count u v hv _ 0 _,
    fun h => removeLoop_of_not_mem r _ 0 _ h⟩

/-- Witness for C12: user `@u` in rooms `!a`, `!r`, `!b` leaves `!r`; `!b` is still there once
(the order has changed), and so is `@v` among the users of `!r`. -/
theorem C12_left_room_keeps_others_witness :
    "!b" ≠ "!r" ∧ "@v" ≠ "@u" ∧
    (JoinedRoomsForUser (UserLeftRoom
      (run [.joined "@u" "!a", .joined "@u" "!r", .joined "@v" "!r", .joined "@u" "!b"])
      "@u" "!r") "@u").count "!b" =
      (JoinedRoomsForUser
        (run [.joined "@u" "!a", .joined "@u" "!r", .joined "@v" "!r", .joined "@u" "!b"])
        "@u").count "!b" ∧
    (JoinedUsersForRoom (UserLeftRoom
      (run [.joined "@u" "!a", .joined "@u" "!r", .joined "@v" "!r", .joined "@u" "!b"])
      "@u" "!r") "!r").count "@v" =
      (JoinedUsersForRoom
        (run [.joined "@u" "!a", .joined "@u" "!r", .joined "@v" "!r", .joined "@u" "!b"])
        "!r").count "@v" ∧
    ("!r" ∉ JoinedRoomsForUser
        (run [.joined "@u" "!a", .joined "@u" "!r", .joined "@v" "!r", .joined "@u" "!b"]) "@u" →
      JoinedRoomsForUser (UserLeftRoom
        (run [.joined "@u" "!a", .joined "@u" "!r", .joined "@v" "!r", .joined "@u" "!b"])
        "@u" "!r") "@u" =
      JoinedRoomsForUser
        (run [.joined "@u" "!a", .joined "@u" "!r", .joined "@v" "!r", .joined "@u" "!b"]) "@u") :=
  ⟨by decide, by decide,
    C12_left_room_keeps_others
      (run [.joined "@u" "!a", .joined "@u" "!r", .joined "@v" "!r", .joined "@u" "!b"])
      "@u" "!r" "!b" "@v" (by decide) (by decide)⟩

/-- The loop on a slice that holds the id only as its last element returns the slice without
that element, in the same order. -/
theorem removeLoop_append_self (id : String) (s : List String) (h : id ∉ s) (fuel : Nat) :
    ∀ (i : Nat), i ≤ s.length → s.length + 1 - i ≤ fuel →
      removeLoop id fuel i (s ++ [id]) = s := by
  induction fuel with
  | zero => intro i hi hf; omega
  | succ n ih =>
    intro i hi hf
    rw [removeLoop]
    have hlen : (s ++ [id]).length = s.length + 1 := by simp
    have hil : i < (s ++ [id]).length := by omega
    rw [dif_pos hil]
    by_cases hlt : i < s.length
    · have hne : ¬ id = (s ++ [id])[i] := by
        rw [List.getElem_append_left hlt]
        exact fun he => h (he ▸ List.getElem_mem hlt)
      rw [if_neg hne]
      exact ih (i + 1) (by omega) (by omega)
    · have hieq : i = s.length := by omega
      subst hieq
      have hid : id = (s ++ [id])[s.length] := by simp
      rw [if_pos hid]
      have hl : (s ++ [id]).length - 1 < (s ++ [id]).length := by omega
      show removeLoop id n (s.length + 1)
        (((s ++ [id]).set s.length (s ++ [id])[(s ++ [id]).length - 1]).take
          ((s ++ [id]).length - 1)) = s
      have htake : ((s ++ [id]).set s.length (s ++ [id])[(s ++ [id]).length - 1]).take
          ((s ++ [id]).length - 1) = s := by
        generalize (s ++ [id])[(s ++ [id]).length - 1] = x
        rw [hlen, Nat.add_sub_cancel, List.set_append_right _ _ (le_refl _)]
        simp
      rw [htake]
      exact removeLoop_of_not_mem id n _ s h

/-- C13. Join then leave is a round trip: when `r` does not occur in `JoinedRoomsForUser(u)`
and `u` does not occur in `JoinedUsersForRoom(r)`, after `UserJoinedRoom(u, r)` and then
`UserLeftRoom(u, r)` every `JoinedRoomsForUser(u')` and every `JoinedUsersForRoom(r')` is the
sequence it was before the two calls, in the same order. -/
theorem C13_join_leave_round_trip (t : JoinedRoomsTracker) (u r : String)
    (hr : r ∉ JoinedRoomsForUser t u) (hu : u ∉ JoinedUsersForRoom t r) (u' r' : String) :
    JoinedRoomsForUser (UserLeftRoom (UserJoinedRoom t u r) u r) u' = JoinedRoomsForUser t u' ∧
      JoinedUsersForRoom (UserLeftRoom (UserJoinedRoom t u r) u r) r' =
        JoinedUsersForRoom t r' := by
  simp only [JoinedRoomsForUser, JoinedUsersForRoom] at hr hu
  simp only [JoinedRoomsForUser, JoinedUsersForRoom, UserLeftRoom, UserJoinedRoom,
    mapStore_same]
  constructor
  · by_cases h : u' = u
    · subst h
      rw [mapStore_same]
      exact removeLoop_append_self r _ hr _ 0 (Nat.zero_le _) (by simp)
    · rw [mapStore_other _ _ _ _ h, mapStore_other _ _ _ _ h]
  · by_cases h : r' = r
    · subst h
      rw [mapStore_same]
      exact removeLoop_append_self u _ hu _ 0 (Nat.zero_le _) (by simp)
    · rw [mapStore_other _ _ _ _ h, mapStore_other _ _ _ _ h]

/-- Witness for C13: `@u` joins and leaves `!r` in a tracker where `@u` is in `!a` and `@v` is
in `!r`. -/
theorem C13_join_leave_round_trip_witness :
    "!r" ∉ JoinedRoomsForUser (run [.joined "@u" "!a", .joined "@v" "!r"]) "@u" ∧
    "@u" ∉ JoinedUsersForRoom (run [.joined "@u" "!a", .joined "@v" "!r"]) "!r" ∧
    JoinedRoomsForUser
        (UserLeftRoom (UserJoinedRoom (run [.joined "@u" "!a", .joined "@v" "!r"]) "@u" "!r")
          "@u" "!r") "@u" =
      JoinedRoomsForUser (run [.joined "@u" "!a", .joined "@v" "!r"]) "@u" ∧
    JoinedUsersForRoom
        (UserLeftRoom (UserJoinedRoom (run [.joined "@u" "!a", .joined "@v" "!r"]) "@u" "!r")
          "@u" "!r") "!r" =
      JoinedUsersForRoom (run [.joined "@u" "!a", .joined "@v" "!r"]) "!r" :=
  ⟨by decide, by decide,
    C13_join_leave_round_trip (run [.joined "@u" "!a", .joined "@v" "!r"]) "@u" "!r"
      (by decide) (by decide) "@u" "!r"⟩

/-- C14. Frame of the writers: `UserJoinedRoom(u, r)` and `UserLeftRoom(u, r)` both leave
`JoinedRoomsForUser(u')` as it was for every user `u'` other than `u`, and
`JoinedUsersForRoom(r')` as it was for every room `r'` other than `r`. -/
theorem C14_writers_frame (t : JoinedRoomsTracker) (u r u' r' : String)
    (hu : u' ≠ u) (hr : r' ≠ r) :
    JoinedRoomsForUser (UserJoinedRoom t u r) u' = JoinedRoomsForUser t u' ∧
      JoinedUsersForRoom (UserJoinedRoom t u r) r' = JoinedUsersForRoom t r' ∧
      JoinedRoomsForUser (UserLeftRoom t u r) u' = JoinedRoomsForUser t u' ∧
      JoinedUsersForRoom (UserLeftRoom t u r) r' = JoinedUsersForRoom t r' := by
  simp only [JoinedRoomsForUser, JoinedUsersForRoom, UserJoinedRoom, UserLeftRoom,
    mapStore_other _ _ _ _ hu, mapStore_other _ _ _ _ hr, and_self]

/-- Witness for C14: `@u` joining or leaving `!r` leaves the rooms of `@v` and the users of
`!a` as they were. -/
theorem C14_writers_frame_witness :
    "@v" ≠ "@u" ∧ "!a" ≠ "!r" ∧
    JoinedRoomsForUser (UserJoinedRoom (run [.joined "@u" "!a", .joined "@v" "!r"]) "@u" "!r")
        "@v" = JoinedRoomsForUser (run [.joined "@u" "!a", .joined "@v" "!r"]) "@v" ∧
    JoinedUsersForRoom (UserJoinedRoom (run [.joined "@u" "!a", .joined "@v" "!r"]) "@u" "!r")
        "!a" = JoinedUsersForRoom (run [.joined "@u" "!a", .joined "@v" "!r"]) "!a" ∧
    JoinedRoomsForUser (UserLeftRoom (run [.joined "@u" "!a", .joined "@v" "!r"]) "@u" "!r")
        "@v" = JoinedRoomsForUser (run [.joined "@u" "!a", .joined "@v" "!r"]) "@v" ∧
    JoinedUsersForRoom (UserLeftRoom (run [.joined "@u" "!a", .joined "@v" "!r"]) "@u" "!r")
        "!a" = JoinedUsersForRoom (run [.joined "@u" "!a", .joined "@v" "!r"]) "!a" :=
  ⟨by decide, by decide,
    C14_writers_frame (run [.joined "@u" "!a", .joined "@v" "!r"]) "@u" "!r" "@v" "!a"
      (by decide) (by decide)⟩

end synclive
